import Mathlib

/-!
Shallow embedding of the Av1an job-lifecycle core (av1an-core/src/scene_detect.rs
and av1an-core/src/context.rs) together with proofs of the specification claims.

External collaborators (the av_scenechange analyzer, ffmpeg probing, the
filesystem, the thread RNG) are modelled as explicit parameters, mirroring the
spec's collaborator interfaces (spec §6).  All definitions are executable.
-/

namespace Av1an

/-- Encoders supported by the orchestrator (crate-level `Encoder` enum; the
adapters themselves are out of scope per spec §1). -/
inductive Encoder where
  | aom
  | rav1e
  | vpx
  | svt_av1
  | x264
  | x265
deriving DecidableEq, Repr, Inhabited

/-- Modelled from the spec: `EncoderAdapter.output_extension() → str` (spec §6).
The adapter composition lives outside src/; only the fact that the extension is
a pure function of the encoder matters for the claims. -/
def Encoder.output_extension : Encoder → String
  | .aom | .rav1e | .vpx | .svt_av1 => "ivf"
  | .x264 => "264"
  | .x265 => "hevc"

/-- Per-range override options carried by a zone (spec §3 `ZoneOptions`;
`scenes::ZoneOptions` in the crate). -/
structure ZoneOptions where
  encoder : Encoder
  passes : Nat
  video_params : List String
  photon_noise : Option Nat
  photon_noise_width : Option Nat
  photon_noise_height : Option Nat
  chroma_noise : Bool
  min_scene_len : Nat
deriving DecidableEq, Repr

/-- A scene: a contiguous frame range with optional zone overrides
(`scenes::Scene`). `end_frame` is exclusive. -/
structure Scene where
  start_frame : Nat
  end_frame : Nat
  zone_overrides : Option ZoneOptions
deriving DecidableEq, Repr

/-- Default scene used as the `getD` fallback when indexing the zone list (the
Rust code indexes `zones[next_idx]` directly; all our accesses are proved
in-bounds). -/
def dZ : Scene := { start_frame := 0, end_frame := 0, zone_overrides := none }

/-! ## Scene detection (`scene_detect`, scene_detect.rs lines 85–210) -/

/-- Result of one invocation of the external analyzer
(`av_scenechange::detect_scene_changes`): the cut indices relative to the start
of this invocation's stream, and the number of frames consumed. -/
structure SDResult where
  scene_changes : List Nat
  frame_count : Nat
deriving DecidableEq, Repr

/-- The external scene analyzer (spec §6 `SceneAnalyzer`), modelled as a
deterministic oracle of the stream position (`frames_read`), the
`min_scene_len` option and the frame limit. -/
def Analyzer : Type := Nat → Nat → Option Nat → SDResult

/-- One recorded invocation of the analyzer inside the `scene_detect` loop:
the value of `frames_read` at the call, the `min_scene_len` passed, and the
`frame_limit` passed. -/
structure SDCall where
  framesRead : Nat
  minLen : Nat
  frameLimit : Option Nat
deriving DecidableEq, Repr

/-- The `min_scene_len` chosen at the top of a `scene_detect` loop iteration
(scene_detect.rs lines 120–125): the current zone's override when present,
otherwise the global value. -/
def sdMinLen (zones : List Scene) (gMin : Nat) (curZone : Option Nat) : Nat :=
  match curZone with
  | some i =>
    match (zones.getD i dZ).zone_overrides with
    | some o => o.min_scene_len
    | none => gMin
  | none => gMin

/-- The `frame_limit` chosen in a `scene_detect` loop iteration
(scene_detect.rs lines 134–141): the zone length when inside a zone, the
distance to the next zone when one is pending, no limit otherwise. -/
def sdFrameLimit (zones : List Scene) (curZone nextZoneIdx : Option Nat)
    (framesRead : Nat) : Option Nat :=
  match curZone with
  | some i => some ((zones.getD i dZ).end_frame - (zones.getD i dZ).start_frame)
  | none =>
    match nextZoneIdx with
    | some k => some ((zones.getD k dZ).start_frame - framesRead)
    | none => none

/-- The scenes appended by one loop iteration (scene_detect.rs lines 173–190):
one scene per consecutive pair of cut indices (`tuple_windows`), shifted by
`frames_read`, plus a trailing scene that starts at the end of the last scene
pushed so far (or 0 if none) and closes the segment at `endF`. -/
def sdAppendScenes (scenes : List Scene) (framesRead : Nat)
    (ov : Option ZoneOptions) (cuts : List Nat) (endF : Nat) : List Scene :=
  let pairs := (cuts.zip cuts.tail).map fun p =>
    { start_frame := p.1 + framesRead, end_frame := p.2 + framesRead,
      zone_overrides := ov : Scene }
  let scenes1 := scenes ++ pairs
  scenes1 ++ [{ start_frame := ((scenes1.getLast?).map Scene.end_frame).getD 0,
                end_frame := endF, zone_overrides := ov }]

/-- The `scene_detect` loop (scene_detect.rs lines 119–208), fuelled.  The
current zone is represented by its index into the fixed zone list (the Rust
code holds a reference `&zones[i]`, which is observationally the same).
`none` models both fuel exhaustion and the `bail!` on a frame-count mismatch
(lines 162–171).  Alongside the scene list the recorded analyzer invocations
are returned. -/
def sceneDetectGo (az : Analyzer) (zones : List Scene) (total gMin : Nat) :
    Nat → List Scene → Option Nat → Option Nat → Nat → List SDCall →
    Option (List Scene × List SDCall)
  | 0, _, _, _, _, _ => none
  | fuel + 1, scenes, curZone, nextZoneIdx, framesRead, calls =>
    let msl := sdMinLen zones gMin curZone
    let frameLimit := sdFrameLimit zones curZone nextZoneIdx framesRead
    let r := az framesRead msl frameLimit
    let calls1 := calls ++ [⟨framesRead, msl, frameLimit⟩]
    let ok : Bool := match frameLimit with
      | some l => l == r.frame_count
      | none => true
    if ok then
      let ov := match curZone with
        | some i => (zones.getD i dZ).zone_overrides
        | none => none
      let endF := match frameLimit with
        | some l => framesRead + l
        | none => total
      let scenes2 := sdAppendScenes scenes framesRead ov r.scene_changes endF
      let framesRead1 := match frameLimit with
        | some l => framesRead + l
        | none => framesRead
      match nextZoneIdx with
      | some k =>
        if curZone.all fun i =>
            (zones.getD i dZ).end_frame == (zones.getD k dZ).start_frame then
          sceneDetectGo az zones total gMin fuel scenes2 (some k)
            (if k + 1 == zones.length then none else some (k + 1)) framesRead1 calls1
        else
          sceneDetectGo az zones total gMin fuel scenes2 none (some k) framesRead1 calls1
      | none =>
        if curZone.all fun i => (zones.getD i dZ).end_frame == total then
          some (scenes2, calls1)
        else
          sceneDetectGo az zones total gMin fuel scenes2 none none framesRead1 calls1
    else
      none

/-- Entry point of `scene_detect` (scene_detect.rs lines 105–118): the initial
current zone is the first zone if it starts at frame 0, and the pending-zone
index is set accordingly. -/
def scene_detect (az : Analyzer) (zones : List Scene) (total gMin fuel : Nat) :
    Option (List Scene × List SDCall) :=
  let curZone0 : Option Nat :=
    match zones.head? with
    | some z => if z.start_frame = 0 then some 0 else none
    | none => none
  let nextZoneIdx0 : Option Nat :=
    if zones.isEmpty then none
    else if curZone0.isSome then (if zones.length = 1 then none else some 1)
    else some 0
  sceneDetectGo az zones total gMin fuel [] curZone0 nextZoneIdx0 0 []

/-! ## Tiling predicates and hypotheses -/

/-- `TilesSeg a scenes b` states that `scenes` tiles the frame range `[a, b)`
contiguously: the first scene starts at `a`, each scene is non-empty, each
scene begins where the previous one ended, and the last scene ends at `b`. -/
def TilesSeg : Nat → List Scene → Nat → Prop
  | a, [], b => a = b
  | a, s :: rest, b => s.start_frame = a ∧ a < s.end_frame ∧ TilesSeg s.end_frame rest b

def decTilesSeg : (a : Nat) → (l : List Scene) → (b : Nat) → Decidable (TilesSeg a l b)
  | a, [], b => by unfold TilesSeg; exact Nat.decEq a b
  | a, s :: rest, b => by
    unfold TilesSeg
    have hd : Decidable (TilesSeg s.end_frame rest b) := decTilesSeg s.end_frame rest b
    infer_instance

instance (a : Nat) (l : List Scene) (b : Nat) : Decidable (TilesSeg a l b) :=
  decTilesSeg a l b

/-- A valid sorted zone list: every zone is non-empty and ends within the clip,
and the zones are sorted and pairwise disjoint. -/
def ValidZones (zones : List Scene) (total : Nat) : Prop :=
  (∀ z ∈ zones, z.start_frame < z.end_frame ∧ z.end_frame ≤ total) ∧
  List.Pairwise (fun a b => a.end_frame ≤ b.start_frame) zones

/-- Contract of the external scene analyzer: the cut list is strictly
increasing, starts at cut 0 when non-empty, every cut lies below the number of
frames consumed, and an unlimited invocation consumes the rest of the clip. -/
def AnalyzerGood (az : Analyzer) (total : Nat) : Prop :=
  ∀ fr msl lim,
    List.Chain' (· < ·) (az fr msl lim).scene_changes ∧
    ((az fr msl lim).scene_changes ≠ [] → (az fr msl lim).scene_changes.head? = some 0) ∧
    (∀ c ∈ (az fr msl lim).scene_changes, c < (az fr msl lim).frame_count) ∧
    (lim = none → (az fr msl lim).frame_count = total - fr)

/-- The property claim C7 states of every analyzer invocation: the
`min_scene_len` comes from the zone containing `frames_read` (global value
otherwise), and the `frame_limit` is the containing zone's length, else the
distance to the first zone past `frames_read`, else absent. -/
def SDCallGood (zones : List Scene) (gMin : Nat) (e : SDCall) : Prop :=
  (∀ z ∈ zones, z.start_frame ≤ e.framesRead → e.framesRead < z.end_frame →
    (∀ o, z.zone_overrides = some o → e.minLen = o.min_scene_len) ∧
    e.frameLimit = some (z.end_frame - z.start_frame)) ∧
  ((∀ z ∈ zones, ¬(z.start_frame ≤ e.framesRead ∧ e.framesRead < z.end_frame)) →
    e.minLen = gMin ∧
    e.frameLimit = (zones.find? fun z => decide (e.framesRead < z.start_frame)).map
      (fun z => z.start_frame - e.framesRead))

/-- Loop invariant of `sceneDetectGo`: the accumulated scenes tile
`[0, frames_read)`, the current-zone index (if any) is in bounds and starts
exactly at `frames_read`, the pending-zone index is the successor of the
current one, and when no zone is current/pending the zones to the left are
fully consumed. -/
structure SDInv (zones : List Scene) (total : Nat) (scenes : List Scene)
    (cz ni : Option Nat) (fr : Nat) : Prop where
  tiles : TilesSeg 0 scenes fr
  frLe : fr ≤ total
  czMem : ∀ i, cz = some i → i < zones.length ∧ (zones.getD i dZ).start_frame = fr
  czNi : ∀ i k, cz = some i → ni = some k → k = i + 1 ∧ k < zones.length
  czNiNone : ∀ i, cz = some i → ni = none → i + 1 = zones.length
  gapNi : ∀ k, cz = none → ni = some k → k < zones.length ∧
    (∀ j, j < k → (zones.getD j dZ).end_frame ≤ fr) ∧ fr < (zones.getD k dZ).start_frame
  eofSt : cz = none → ni = none →
    (∀ j, j < zones.length → (zones.getD j dZ).end_frame ≤ fr) ∧ fr < total

/-! ## Chunk planning data model (context.rs) -/

/-- The crate's `Input` (video file or VapourSynth script). -/
inductive Input where
  | video (path : String) (script_text : Option String)
  | vapoursynth (path : String) (vspipe_args : List String) (script_text : String)
deriving DecidableEq, Repr, Inhabited

/-- Modelled from the spec: `Input::as_vspipe_args_vec` (outside src/) returns
the stored vspipe arguments (empty for plain video input). -/
def Input.as_vspipe_args_vec : Input → List String
  | .video _ _ => []
  | .vapoursynth _ args _ => args

/-- Modelled from the spec: `Input::as_script_text` (outside src/) returns the
stored script text. -/
def Input.as_script_text : Input → String
  | .video _ st => st.getD ""
  | .vapoursynth _ _ st => st

/-- Modelled from the spec: `Input::as_video_path` (outside src/); the chunk
planners call it only on video inputs. -/
def Input.as_video_path : Input → String
  | .video p _ => p
  | .vapoursynth p _ _ => p

/-- An ffmpeg pixel format (`ffmpeg::format::Pixel`), identified by its
descriptor name; compared by equality as in the source. -/
structure Pixel where
  name : String
deriving DecidableEq, Repr

/-- The target output pixel format (`settings.rs` `PixelFormat`): the ffmpeg
format plus its bit depth. -/
structure PixelFormat where
  format : Pixel
  bit_depth : Nat
deriving DecidableEq, Repr

/-- The declared input pixel format (`settings.rs` `InputPixelFormat`): either
an ffmpeg pixel format (video input) or a bare bit depth (VapourSynth). -/
inductive InputPixelFormat where
  | ffmpeg (format : Pixel)
  | vapoursynth (bit_depth : Nat)
deriving DecidableEq, Repr

inductive ChunkMethod where
  | ffms2
  | lsmash
  | dgdecnv
  | bestsource
  | hybrid
  | select
  | segment
deriving DecidableEq, Repr

inductive ChunkOrdering where
  | longest_first
  | shortest_first
  | sequential
  | random
deriving DecidableEq, Repr

/-- A chunk (`chunk::Chunk`): an independently encodable frame range together
with the command that produces its frames.  `frame_rate` is rational in the
model (the source stores the clip's rational frame rate converted to `f64`;
no claim inspects its value). -/
structure Chunk where
  temp : String
  index : Nat
  input : Input
  source_cmd : List String
  output_ext : String
  start_frame : Nat
  end_frame : Nat
  frame_rate : Rat
  video_params : List String
  passes : Nat
  encoder : Encoder
  noise_size : Option Nat × Option Nat
  tq_cq : Option Nat
  ignore_frame_mismatch : Bool
deriving DecidableEq, Repr, Inhabited

/-- Modelled from the spec: `Chunk::frames()` (chunk.rs, outside src/) is the
chunk's frame count `end_frame - start_frame` (spec §4.5 uses
`chunk.end_frame - chunk.start_frame` as the expected count). -/
def Chunk.frames (c : Chunk) : Nat := c.end_frame - c.start_frame

/-- Zero-padding of a natural number to five digits, as in `format!("{:05}")`
with braces elided. -/
def natPad5 (n : Nat) : String :=
  let s := toString n
  String.mk (List.replicate (5 - s.length) '0') ++ s

/-- Modelled from the spec: `Chunk::name()` (chunk.rs, outside src/) derives
the `"00001"`-style name from the chunk index (spec §3). -/
def Chunk.name (c : Chunk) : String := natPad5 c.index

/-- The configuration slice of `EncodeArgs` (settings.rs) read by the claims:
temp dir, input, chunking strategy and ordering, global encode options, the
pixel-format pair used by the pipeline, and the resume flag. -/
structure EncodeArgs where
  temp : String
  input : Input
  chunk_method : ChunkMethod
  chunk_order : ChunkOrdering
  encoder : Encoder
  passes : Nat
  video_params : List String
  photon_noise : Option Nat
  photon_noise_size : Option Nat × Option Nat
  chroma_noise : Bool
  ignore_frame_mismatch : Bool
  output_pix_format : PixelFormat
  ffmpeg_filter_args : List String
  input_pix_format : InputPixelFormat
  resume : Bool
deriving DecidableEq, Repr

/-- External collaborators of the chunk planner: the generated VapourSynth
script path, the keyframe list returned by `ffmpeg::get_keyframes`, the
directory listing of `temp/split` after the external splitter ran, the
`get_num_frames` probe, and the clip frame rate. -/
structure Externals where
  vs_script : String
  keyframes : List Nat
  split_files : List String
  probe : String → Option Nat
  frame_rate : Rat

/-- Modelled from the spec: photon-noise application
(`Chunk::apply_photon_noise_args`, chunk.rs, outside src/; grain tables are out
of scope per spec §1).  It only affects noise-related encoder arguments, never
the frame range, index or ordering; modelled as the identity. -/
def Chunk.apply_photon_noise_args (c : Chunk) (photonNoise : Option Nat)
    (chroma : Bool) : Chunk :=
  let _ := photonNoise
  let _ := chroma
  c

/-- `create_select_chunk` (context.rs lines 814–887).  The
`assert!(start_frame < end_frame)` panic is modelled as `none`.  The optional
per-shot target-quality routine (out of scope, spec §1) only sets `tq_cq`. -/
def create_select_chunk (args : EncodeArgs) (index : Nat) (src_path : String)
    (start_frame end_frame : Nat) (frame_rate : Rat)
    (overrides : Option ZoneOptions) : Option Chunk :=
  if start_frame < end_frame then
    let chunk : Chunk := {
      temp := args.temp
      index := index
      input := Input.video src_path none
      source_cmd := ["ffmpeg", "-y", "-hide_banner", "-loglevel", "error",
        "-i", src_path,
        "-vf", "select=between(n\\," ++ toString start_frame ++ "\\," ++
          toString (end_frame - 1) ++ ")",
        "-pix_fmt", args.output_pix_format.format.name,
        "-strict", "-1", "-f", "yuv4mpegpipe", "-"]
      output_ext := args.encoder.output_extension
      start_frame := start_frame
      end_frame := end_frame
      frame_rate := frame_rate
      video_params := match overrides with
        | some o => o.video_params
        | none => args.video_params
      passes := match overrides with
        | some o => o.passes
        | none => args.passes
      encoder := match overrides with
        | some o => o.encoder
        | none => args.encoder
      noise_size := args.photon_noise_size
      tq_cq := none
      ignore_frame_mismatch := args.ignore_frame_mismatch }
    some (chunk.apply_photon_noise_args
      (match overrides with | some o => o.photon_noise | none => args.photon_noise)
      args.chroma_noise)
  else
    none

/-- `create_vs_chunk` (context.rs lines 889–950). -/
def create_vs_chunk (args : EncodeArgs) (index : Nat) (vs_script : String)
    (scene : Scene) (frame_rate : Rat) : Chunk :=
  let frame_end := scene.end_frame - 1
  let chunk : Chunk := {
    temp := args.temp
    index := index
    input := Input.vapoursynth vs_script args.input.as_vspipe_args_vec
      args.input.as_script_text
    source_cmd := ["vspipe", vs_script, "-c", "y4m", "-",
      "-s", toString scene.start_frame, "-e", toString frame_end]
    output_ext := args.encoder.output_extension
    start_frame := scene.start_frame
    end_frame := scene.end_frame
    frame_rate := frame_rate
    video_params := match scene.zone_overrides with
      | some o => o.video_params
      | none => args.video_params
    passes := match scene.zone_overrides with
      | some o => o.passes
      | none => args.passes
    encoder := match scene.zone_overrides with
      | some o => o.encoder
      | none => args.encoder
    noise_size := match scene.zone_overrides with
      | some o => (o.photon_noise_width, o.photon_noise_height)
      | none => args.photon_noise_size
    tq_cq := none
    ignore_frame_mismatch := args.ignore_frame_mismatch }
  chunk.apply_photon_noise_args
    (match scene.zone_overrides with
      | some o => o.photon_noise
      | none => args.photon_noise)
    (match scene.zone_overrides with
      | some o => o.chroma_noise
      | none => args.chroma_noise)

/-- `create_chunk_from_segment` (context.rs lines 1076–1132); the
`get_num_frames` probe of the segment file is the external `probe`;
probe failure propagates (modelled as `none`). -/
def create_chunk_from_segment (args : EncodeArgs) (index : Nat) (file : String)
    (frame_rate : Rat) (overrides : Option ZoneOptions)
    (probe : String → Option Nat) : Option Chunk :=
  match probe file with
  | none => none
  | some num_frames =>
    let chunk : Chunk := {
      temp := args.temp
      input := Input.video file none
      source_cmd := ["ffmpeg", "-y", "-hide_banner", "-loglevel", "error",
        "-i", file,
        "-strict", "-1", "-pix_fmt", args.output_pix_format.format.name,
        "-f", "yuv4mpegpipe", "-"]
      output_ext := args.encoder.output_extension
      index := index
      start_frame := 0
      end_frame := num_frames
      frame_rate := frame_rate
      video_params := match overrides with
        | some o => o.video_params
        | none => args.video_params
      passes := match overrides with
        | some o => o.passes
        | none => args.passes
      encoder := match overrides with
        | some o => o.encoder
        | none => args.encoder
      noise_size := args.photon_noise_size
      tq_cq := none
      ignore_frame_mismatch := args.ignore_frame_mismatch }
    some (chunk.apply_photon_noise_args
      (match overrides with | some o => o.photon_noise | none => args.photon_noise)
      args.chroma_noise)

/-- `create_video_queue_vs` (context.rs lines 952–963): one chunk per scene in
enumeration order, carried out by explicit recursion over the scene list with
the running index. -/
def create_video_queue_vs_go (args : EncodeArgs) (vs_script : String)
    (frame_rate : Rat) : Nat → List Scene → List Chunk
  | _, [] => []
  | i, s :: rest =>
    create_vs_chunk args i vs_script s frame_rate ::
      create_video_queue_vs_go args vs_script frame_rate (i + 1) rest

def create_video_queue_vs (args : EncodeArgs) (scenes : List Scene)
    (vs_script : String) (frame_rate : Rat) : List Chunk :=
  create_video_queue_vs_go args vs_script frame_rate 0 scenes

/-- `create_video_queue_select` (context.rs lines 965–986); the `.unwrap()`
on each chunk (assertion failure) is modelled as `none` for the whole queue. -/
def create_video_queue_select_go (args : EncodeArgs) (input : String)
    (frame_rate : Rat) : Nat → List Scene → Option (List Chunk)
  | _, [] => some []
  | i, s :: rest =>
    match create_select_chunk args i input s.start_frame s.end_frame frame_rate
        s.zone_overrides with
    | none => none
    | some c =>
      match create_video_queue_select_go args input frame_rate (i + 1) rest with
      | none => none
      | some cs => some (c :: cs)

def create_video_queue_select (args : EncodeArgs) (scenes : List Scene)
    (frame_rate : Rat) : Option (List Chunk) :=
  create_video_queue_select_go args args.input.as_video_path frame_rate 0 scenes

/-- `read_queue_files` (context.rs lines 477–492): keep only `.mkv` files and
sort by filename (`concat::sort_files_by_filename`, outside src/, modelled from
the spec as a lexicographic sort). -/
def segQueueFiles (raw : List String) : List String :=
  (raw.filter fun f => f.endsWith ".mkv").mergeSort fun a b => decide (a ≤ b)

/-- The per-file loop of `create_video_queue_segment` (context.rs lines
1008–1020): `scenes[index]` out of bounds (a Rust panic) and probe failure are
modelled as `none`. -/
def create_video_queue_segment_go (args : EncodeArgs) (frame_rate : Rat)
    (probe : String → Option Nat) (scenes : List Scene) :
    Nat → List String → Option (List Chunk)
  | _, [] => some []
  | i, f :: rest =>
    match scenes.get? i with
    | none => none
    | some s =>
      match create_chunk_from_segment args i f frame_rate s.zone_overrides probe with
      | none => none
      | some c =>
        match create_video_queue_segment_go args frame_rate probe scenes (i + 1) rest with
        | none => none
        | some cs => some (c :: cs)

/-- `create_video_queue_segment` (context.rs lines 988–1023).  The external
splitter has already populated `temp/split` (`ext.split_files`); the
`assert!(!queue_files.is_empty())` panic — the spec's `PlanningFailed` — is
modelled as `none`. -/
def create_video_queue_segment (args : EncodeArgs) (scenes : List Scene)
    (ext : Externals) : Option (List Chunk) :=
  let queue_files := segQueueFiles ext.split_files
  if queue_files.isEmpty then none
  else create_video_queue_segment_go args ext.frame_rate ext.probe scenes 0 queue_files

/-- The (file, window) pairs of `create_video_queue_hybrid` (context.rs lines
1029–1047): keyframes that coincide with a scene start, windowed with the end
of the clip, zipped against the sorted segment files. -/
def hybridPairs (scenes : List Scene) (total : Nat) (ext : Externals) :
    List (String × (Nat × Nat)) :=
  let to_split := ext.keyframes.filter fun kf => scenes.any fun s => s.start_frame == kf
  let queue_files := segQueueFiles ext.split_files
  queue_files.zip ((to_split ++ [total]).zip ((to_split ++ [total]).tail))

/-- The segment list of `create_video_queue_hybrid` (context.rs lines
1046–1055): for each (file, window) pair, every scene lying inside the window
becomes a window-relative range on that file. -/
def hybridSegments (scenes : List Scene)
    (pairsFW : List (String × (Nat × Nat))) : List (String × Nat × Nat × Scene) :=
  pairsFW.flatMap fun fw =>
    scenes.filterMap fun s =>
      if s.start_frame ≥ fw.2.1 ∧ s.end_frame ≤ fw.2.2 ∧ s.start_frame < s.end_frame then
        some (fw.1, s.start_frame - fw.2.1, s.end_frame - fw.2.1, s)
      else none

def create_video_queue_hybrid_go (args : EncodeArgs) (frame_rate : Rat) :
    Nat → List (String × Nat × Nat × Scene) → Option (List Chunk)
  | _, [] => some []
  | i, seg :: rest =>
    match create_select_chunk args i seg.1 seg.2.1 seg.2.2.1 frame_rate
        seg.2.2.2.zone_overrides with
    | none => none
    | some c =>
      match create_video_queue_hybrid_go args frame_rate (i + 1) rest with
      | none => none
      | some cs => some (c :: cs)

/-- `create_video_queue_hybrid` (context.rs lines 1025–1074).  The slice
`&to_split[1..]` panics when `to_split` is empty; modelled as `none`. -/
def create_video_queue_hybrid (args : EncodeArgs) (scenes : List Scene)
    (total : Nat) (ext : Externals) : Option (List Chunk) :=
  let to_split := ext.keyframes.filter fun kf => scenes.any fun s => s.start_frame == kf
  match to_split with
  | [] => none
  | _ :: _ =>
    create_video_queue_hybrid_go args ext.frame_rate 0
      (hybridSegments scenes (hybridPairs scenes total ext))

/-- An in-bounds swap of two list positions. -/
def swapAt {α : Type} [Inhabited α] (l : List α) (i j : Nat) : List α :=
  if i < l.length ∧ j < l.length then
    (l.set i (l.getD j default)).set j (l.getD i default)
  else l

/-- Modelled from rand's `SliceRandom::shuffle`: Fisher–Yates from the top
index downward, drawing `draws i % (i + 1)` as the swap partner of `i`.  The
source calls it with the unseeded thread RNG `rng()`, modelled as the
explicit draw stream. -/
def fyGo {α : Type} [Inhabited α] (draws : Nat → Nat) : Nat → List α → List α
  | 0, l => l
  | i + 1, l => fyGo draws i (swapAt l (i + 1) (draws (i + 1) % (i + 2)))

def shuffleFY {α : Type} [Inhabited α] (draws : Nat → Nat) (l : List α) : List α :=
  fyGo draws (l.length - 1) l

/-- The reordering applied after planning (context.rs lines 773–786).
`sort_unstable_by_key` is modelled as a merge sort by the same key (the tie
order of the unstable sort is irrelevant to every claim, which only constrain
the multiset); `chunks.shuffle(&mut rng())` is the Fisher–Yates shuffle over
the thread-RNG draw stream `rng`. -/
def applyChunkOrder (ord : ChunkOrdering) (rng : Nat → Nat)
    (chunks : List Chunk) : List Chunk :=
  match ord with
  | .longest_first => chunks.mergeSort fun a b => decide (b.frames ≤ a.frames)
  | .shortest_first => chunks.mergeSort fun a b => decide (a.frames ≤ b.frames)
  | .sequential => chunks
  | .random => shuffleFY rng chunks

/-- `create_encoding_queue` (context.rs lines 752–789): strategy dispatch on
input kind and chunk method, followed by the configured reordering.
`sort_unstable_by_key` is modelled as a merge sort by the same key (the tie
order of the unstable sort is irrelevant to every claim, which only constrain
the multiset); `chunks.shuffle(&mut rng())` is the Fisher–Yates shuffle over
the thread-RNG draw stream `rng`. -/
def create_encoding_queue (args : EncodeArgs) (scenes : List Scene)
    (total : Nat) (ext : Externals) (rng : Nat → Nat) : Option (List Chunk) :=
  let base : Option (List Chunk) :=
    match args.input with
    | Input.video _ _ =>
      match args.chunk_method with
      | .ffms2 | .lsmash | .dgdecnv | .bestsource =>
        some (create_video_queue_vs args scenes ext.vs_script ext.frame_rate)
      | .hybrid => create_video_queue_hybrid args scenes total ext
      | .select => create_video_queue_select args scenes ext.frame_rate
      | .segment => create_video_queue_segment args scenes ext
    | Input.vapoursynth path _ _ =>
      some (create_video_queue_vs args scenes path ext.frame_rate)
  match base with
  | none => none
  | some chunks => some (applyChunkOrder args.chunk_order rng chunks)

/-- `load_or_gen_chunk_queue` (context.rs lines 1135–1152).  On resume the
stored queue (read from `chunks.json`, an external input here) is filtered
against the done set; otherwise the queue is generated and persisted (the
`save_chunk_queue` write is a side effect outside the model). -/
def load_or_gen_chunk_queue (args : EncodeArgs) (stored : List Chunk)
    (doneNames : List String) (splits : List Scene) (total : Nat)
    (ext : Externals) (rng : Nat → Nat) : Option (List Chunk × Nat) :=
  if args.resume then
    let num_chunks := stored.length
    some (stored.filter fun chunk => !(doneNames.contains chunk.name), num_chunks)
  else
    match create_encoding_queue args splits total ext rng with
    | none => none
    | some chunks => some (chunks, chunks.length)

/-! ## Initialization (context.rs lines 97–176) -/

/-- Outcome of the resume decision in `Av1anContext::initialize`. -/
structure InitDecision where
  resume : Bool
  warned : Bool
  freshDoneInit : Bool
deriving DecidableEq, Repr

/-- The resume decision of `initialize` (context.rs lines 116–176): with the
resume flag set, the four existence combinations of `done.json` and
`chunks.json` are matched; any missing file clears the flag and logs a message
(the spec's warning).  The function always returns (no abort), and a run that
is not resuming initializes a fresh `done.json`. -/
def initializeResume (resume done_json_exists chunks_json_exists : Bool) :
    InitDecision :=
  let r : Bool × Bool :=
    if resume then
      match done_json_exists, chunks_json_exists with
      | true, true => (resume, false)
      | false, true => (false, true)
      | true, false => (false, true)
      | false, false => (false, true)
    else (resume, false)
  { resume := r.1, warned := r.2, freshDoneInit := !(r.1 && done_json_exists) }

/-! ## Pipeline completion (`create_pipes`, context.rs lines 497–750) -/

/-- `broker::EncoderCrash` as used by `create_pipes`: exit state and the four
captured streams. -/
structure EncoderCrash where
  exit_success : Bool
  source_pipe_stderr : String
  ffmpeg_pipe_stderr : Option String
  stderr : String
  stdout : String
deriving DecidableEq, Repr

/-- The synthetic stdout of a frame-count mismatch (context.rs lines 721–727,
the Rust format string with its fields spelled out). -/
def frameMismatchMsg (index actual expected : Nat) : String :=
  "FRAME MISMATCH: chunk " ++ toString index ++ ": " ++ toString actual ++ "/" ++
    toString expected ++ " (actual/expected frames)"

/-- The synthetic stdout of a failed frame probe (context.rs lines 728–731). -/
def failedCountMsg (index : Nat) (e : String) : String :=
  "FAILED TO COUNT FRAMES: chunk " ++ toString index ++ ": " ++ e

/-- The completion logic of `create_pipes` after the pipeline ran (context.rs
lines 701–749): a failing encoder exit returns an `EncoderCrash` with the
captured streams; on success of the final pass the produced file is probed
(`get_num_frames`, the external `probe`) and checked against the chunk's frame
count unless `ignore_frame_mismatch`. -/
def create_pipes_verify (chunk : Chunk) (current_pass : Nat) (enc_success : Bool)
    (enc_stdout : String) (source_pipe_stderr : String)
    (ffmpeg_pipe_stderr : Option String) (enc_stderr : String) (frame : Nat)
    (probe : Except String Nat) : Except (EncoderCrash × Nat) Unit :=
  if !enc_success then
    let crash : EncoderCrash := {
      exit_success := enc_success
      source_pipe_stderr := source_pipe_stderr
      ffmpeg_pipe_stderr := ffmpeg_pipe_stderr
      stderr := enc_stderr
      stdout := enc_stdout }
    Except.error (crash, frame)
  else if current_pass = chunk.passes then
    let err_str : Option String :=
      match probe with
      | .ok encoded_frames =>
        if !chunk.ignore_frame_mismatch ∧ encoded_frames ≠ chunk.frames then
          some (frameMismatchMsg chunk.index encoded_frames chunk.frames)
        else none
      | .error e => some (failedCountMsg chunk.index e)
    match err_str with
    | some msg =>
      let crash : EncoderCrash := {
        exit_success := enc_success
        source_pipe_stderr := source_pipe_stderr
        ffmpeg_pipe_stderr := ffmpeg_pipe_stderr
        stderr := enc_stderr
        stdout := msg }
      Except.error (crash, frame)
    | none => Except.ok ()
  else Except.ok ()

/-- The pipeline-topology decision of `create_pipes` (context.rs lines
579–603): the intermediate ffmpeg stage is created unless the user filter list
is empty and the declared input format (or bit depth, for VapourSynth) already
matches the target. -/
def filter_stage_spawned (ffmpeg_filter_args : List String)
    (input_pix_format : InputPixelFormat) (output_pix_format : PixelFormat) : Bool :=
  if ffmpeg_filter_args.isEmpty then
    match input_pix_format with
    | .ffmpeg format => !(output_pix_format.format == format)
    | .vapoursynth bit_depth => !(output_pix_format.bit_depth == bit_depth)
  else true

/-- The filter-stage condition as the spec words it (spec §4.5): user filter
args present, or the declared input pixel format differs from the target, or
the declared input bit depth differs from the target. -/
def filter_stage_needed_spec (ffmpeg_filter_args : List String)
    (input_pix_format : InputPixelFormat) (output_pix_format : PixelFormat) : Prop :=
  ffmpeg_filter_args ≠ [] ∨
  (match input_pix_format with
    | .ffmpeg format => format ≠ output_pix_format.format
    | .vapoursynth _ => False) ∨
  (match input_pix_format with
    | .ffmpeg _ => False
    | .vapoursynth bit_depth => bit_depth ≠ output_pix_format.bit_depth)

/-- The frame-counter update of the encoder stderr loop (context.rs lines
671–681): a parsed value replaces the counter only when strictly greater. -/
def updateFrame (frame : Nat) (parsed : Option Nat) : Nat :=
  match parsed with
  | some new => if frame < new then new else frame
  | none => frame

/-- The progress-bar increment of the same loop (`inc_bar(new - frame)`),
zero when no update happens. -/
def barInc (frame : Nat) (parsed : Option Nat) : Nat :=
  match parsed with
  | some new => if frame < new then new - frame else 0
  | none => 0

/-- The frame counter after processing the whole carriage-return-delimited
stderr stream: the fold of `updateFrame` from 0 over the per-record parse
results (`parse_encoded_frames`). This is the `frame` value returned with an
`EncoderCrash`. -/
def framesBeforeCrash (parsedSeq : List (Option Nat)) : Nat :=
  parsedSeq.foldl updateFrame 0

/-! ## Sums used by the chunk-queue claims -/

def chunksFrames (q : List Chunk) : Nat := (q.map Chunk.frames).sum

/-- Frames of the scenes lying inside the keyframe window `w` (claim C2's
"covered frames within each keyframe segment"). -/
def coveredFrames (scenes : List Scene) (w : Nat × Nat) : Nat :=
  ((scenes.filter fun s =>
    decide (s.start_frame ≥ w.1 ∧ s.end_frame ≤ w.2 ∧ s.start_frame < s.end_frame)).map
      fun s => s.end_frame - s.start_frame).sum

def hybridCoveredTotal (scenes : List Scene) (total : Nat) (ext : Externals) : Nat :=
  ((hybridPairs scenes total ext).map fun fw => coveredFrames scenes fw.2).sum

/-- Whether the run plans with the Hybrid strategy (VapourSynth input always
takes the `create_video_queue_vs` path, context.rs lines 753–771). -/
def usesHybridPlanner (args : EncodeArgs) : Bool :=
  match args.input, args.chunk_method with
  | Input.video _ _, ChunkMethod.hybrid => true
  | _, _ => false

/-- Whether the run plans with the Segment strategy. -/
def usesSegmentPlanner (args : EncodeArgs) : Bool :=
  match args.input, args.chunk_method with
  | Input.video _ _, ChunkMethod.segment => true
  | _, _ => false

/-! ## Concrete objects used by the witness theorems -/

/-- A trivial analyzer that reports no cuts and consumes exactly the requested
frames (clip length 10). -/
def azW : Analyzer := fun fr _ lim =>
  { scene_changes := []
    frame_count := match lim with | some l => l | none => 10 - fr }

/-- A trivial analyzer for a 3-frame clip. -/
def azW3 : Analyzer := fun fr _ lim =>
  { scene_changes := []
    frame_count := match lim with | some l => l | none => 3 - fr }

def ovW : ZoneOptions := {
  encoder := Encoder.aom
  passes := 1
  video_params := []
  photon_noise := none
  photon_noise_width := none
  photon_noise_height := none
  chroma_noise := false
  min_scene_len := 2 }

def zonesW : List Scene := [{ start_frame := 1, end_frame := 2, zone_overrides := some ovW }]

def pixW : Pixel := { name := "yuv420p10le" }

def argsW : EncodeArgs := {
  temp := "tmp"
  input := Input.video "in.mkv" none
  chunk_method := ChunkMethod.select
  chunk_order := ChunkOrdering.sequential
  encoder := Encoder.aom
  passes := 1
  video_params := []
  photon_noise := none
  photon_noise_size := (none, none)
  chroma_noise := false
  ignore_frame_mismatch := false
  output_pix_format := { format := pixW, bit_depth := 10 }
  ffmpeg_filter_args := []
  input_pix_format := InputPixelFormat.ffmpeg pixW
  resume := false }

def argsResumeW : EncodeArgs := { argsW with resume := true }

def argsSegW : EncodeArgs := { argsW with chunk_method := ChunkMethod.segment }

def argsRandomW : EncodeArgs := { argsW with chunk_order := ChunkOrdering.random }

def extW : Externals := {
  vs_script := "scd.vpy"
  keyframes := []
  split_files := []
  probe := fun _ => none
  frame_rate := 24 }

def chunkW : Chunk := {
  temp := "tmp"
  index := 3
  input := Input.video "in.mkv" none
  source_cmd := []
  output_ext := "ivf"
  start_frame := 0
  end_frame := 5
  frame_rate := 24
  video_params := []
  passes := 1
  encoder := Encoder.aom
  noise_size := (none, none)
  tq_cq := none
  ignore_frame_mismatch := false }

def scenes2W : List Scene :=
  [{ start_frame := 0, end_frame := 2, zone_overrides := none },
   { start_frame := 2, end_frame := 5, zone_overrides := none }]

def chunk0W : Chunk := { chunkW with index := 0 }

def chunk1W : Chunk := { chunkW with index := 1 }

/-! ## Basic lemmas about `TilesSeg` -/

theorem tilesSeg_le : ∀ {a : Nat} {l : List Scene} {b : Nat}, TilesSeg a l b → a ≤ b
  | _, [], _, h => Nat.le_of_eq h
  | _, s :: rest, _, h =>
    Nat.le_trans (Nat.le_of_lt (h.1 ▸ h.2.1)) (tilesSeg_le h.2.2)

theorem tilesSeg_append : ∀ {a m b : Nat} {xs ys : List Scene},
    TilesSeg a xs m → TilesSeg m ys b → TilesSeg a (xs ++ ys) b
  | _, _, _, [], ys, hx, hy => by
    cases hx; simpa using hy
  | _, _, _, x :: xs, ys, hx, hy =>
    ⟨hx.1, hx.2.1, tilesSeg_append hx.2.2 hy⟩

theorem tilesSeg_nonempty_each : ∀ {a b : Nat} {l : List Scene},
    TilesSeg a l b → ∀ s ∈ l, s.start_frame < s.end_frame
  | _, _, [], _, s, hs => by cases hs
  | _, _, x :: rest, h, s, hs => by
    rcases List.mem_cons.mp hs with hs | hs
    · subst hs; exact h.1 ▸ h.2.1
    · exact tilesSeg_nonempty_each h.2.2 s hs

theorem tilesSeg_chain : ∀ {a b : Nat} {l : List Scene},
    TilesSeg a l b → List.Chain' (fun u v => u.end_frame = v.start_frame) l
  | _, _, [], _ => List.chain'_nil
  | _, _, [x], _ => List.chain'_singleton x
  | _, _, x :: y :: rest, h => by
    refine List.Chain'.cons ?_ (tilesSeg_chain h.2.2)
    exact h.2.2.1.symm

theorem tilesSeg_head : ∀ {a b : Nat} {l : List Scene},
    TilesSeg a l b → l ≠ [] → l.head?.map Scene.start_frame = some a
  | _, _, [], _, hne => absurd rfl hne
  | _, _, x :: rest, h, _ => by simp [h.1]

theorem tilesSeg_last : ∀ {a b : Nat} {l : List Scene},
    TilesSeg a l b → l ≠ [] → l.getLast?.map Scene.end_frame = some b
  | _, _, [], _, hne => absurd rfl hne
  | _, _, [x], h, _ => by
    cases h.2.2
    simp
  | _, _, x :: y :: rest, h, _ => by
    rw [List.getLast?_cons_cons]
    exact tilesSeg_last h.2.2 (List.cons_ne_nil y rest)

theorem tilesSeg_sum : ∀ {a b : Nat} {l : List Scene},
    TilesSeg a l b → a + (l.map fun s => s.end_frame - s.start_frame).sum = b
  | _, _, [], h => by simpa using h
  | a, b, x :: rest, h => by
    have ih := tilesSeg_sum h.2.2
    have hx : x.start_frame = a := h.1
    have hlt : a < x.end_frame := h.2.1
    simp only [List.map_cons, List.sum_cons]
    omega

theorem tilesSeg_sorted : ∀ {a b : Nat} {l : List Scene},
    TilesSeg a l b → List.Chain' (fun u v => u.start_frame < v.start_frame) l
  | _, _, [], _ => List.chain'_nil
  | _, _, [x], _ => List.chain'_singleton x
  | _, _, x :: y :: rest, h => by
    refine List.Chain'.cons ?_ (tilesSeg_sorted h.2.2)
    have h1 : x.start_frame < x.end_frame := h.1 ▸ h.2.1
    have h2 : y.start_frame = x.end_frame := h.2.2.1
    omega

/-! ## The scenes appended by one loop iteration tile the analyzed segment -/

theorem getLastD_mem_cons : ∀ (l : List Nat) (a : Nat), l.getLastD a ∈ a :: l
  | [], a => List.mem_singleton.mpr rfl
  | b :: t, a => by
    rw [List.getLastD_cons]
    exact List.mem_cons.mpr (Or.inr (getLastD_mem_cons t b))

/-- For a tiling of `[0, b)`, the code's computation of the next scene start
(`scenes.last().map(end_frame).unwrap_or_default()`) yields exactly `b`. -/
theorem tilesSeg_lastD {l : List Scene} {b : Nat} (h : TilesSeg 0 l b) :
    ((l.getLast?).map Scene.end_frame).getD 0 = b := by
  cases l with
  | nil =>
    have hb : (0 : Nat) = b := h
    simp [← hb]
  | cons s t =>
    rw [tilesSeg_last h (List.cons_ne_nil s t)]
    rfl

/-- The pair-window scenes built from a strictly increasing cut list
`c :: rest` tile `[c + fr, last + fr)` where `last` is the final cut. -/
theorem sdPairs_tiles (fr : Nat) (ov : Option ZoneOptions) :
    ∀ (rest : List Nat) (c : Nat), List.Chain' (· < ·) (c :: rest) →
      TilesSeg (c + fr)
        (((c :: rest).zip rest).map fun p =>
          ({ start_frame := p.1 + fr, end_frame := p.2 + fr,
             zone_overrides := ov } : Scene))
        (rest.getLastD c + fr)
  | [], c, _ => by simp [TilesSeg]
  | c2 :: rest2, c, hch => by
    have ih := sdPairs_tiles fr ov rest2 c2 (List.chain'_cons.mp hch).2
    simp only [List.zip_cons_cons, List.map_cons, List.getLastD_cons]
    refine ⟨rfl, ?_, ih⟩
    show c + fr < c2 + fr
    have : c < c2 := (List.chain'_cons.mp hch).1
    omega

/-- One loop iteration extends a tiling of `[0, fr)` to a tiling of
`[0, fr + cnt)`, provided the analyzer's cut list is strictly increasing,
starts at 0 (when non-empty), and stays below the frame count `cnt`. -/
theorem sdAppendScenes_tiles (scenes : List Scene) (fr cnt : Nat)
    (ov : Option ZoneOptions) (cuts : List Nat)
    (hts : TilesSeg 0 scenes fr)
    (hch : List.Chain' (· < ·) cuts)
    (hhd : cuts ≠ [] → cuts.head? = some 0)
    (hlt : ∀ x ∈ cuts, x < cnt)
    (hcnt : 0 < cnt) :
    TilesSeg 0 (sdAppendScenes scenes fr ov cuts (fr + cnt)) (fr + cnt) := by
  unfold sdAppendScenes
  cases cuts with
  | nil =>
    simp only [List.zip_nil_left, List.map_nil, List.append_nil]
    rw [tilesSeg_lastD hts]
    exact tilesSeg_append hts ⟨rfl, Nat.lt_add_of_pos_right hcnt, rfl⟩
  | cons c rest =>
    have hc0 : c = 0 := by
      have := hhd (List.cons_ne_nil c rest)
      simp only [List.head?_cons, Option.some_inj] at this
      omega
    subst hc0
    have hpairs := sdPairs_tiles fr ov rest 0 hch
    simp only [List.tail_cons]
    have hts1 : TilesSeg 0 (scenes ++ ((0 :: rest).zip rest).map fun p =>
        ({ start_frame := p.1 + fr, end_frame := p.2 + fr,
           zone_overrides := ov } : Scene)) (rest.getLastD 0 + fr) := by
      refine tilesSeg_append hts ?_
      simpa using hpairs
    rw [tilesSeg_lastD hts1]
    refine tilesSeg_append hts1 ⟨rfl, ?_, rfl⟩
    show rest.getLastD 0 + fr < fr + cnt
    have hmem : rest.getLastD 0 ∈ (0 :: rest) := getLastD_mem_cons rest 0
    have := hlt _ hmem
    omega

/-! ## Zone list access lemmas -/

theorem validZones_bounds {zones : List Scene} {total : Nat}
    (hval : ValidZones zones total) {i : Nat} (hi : i < zones.length) :
    (zones.getD i dZ).start_frame < (zones.getD i dZ).end_frame ∧
    (zones.getD i dZ).end_frame ≤ total := by
  rw [List.getD_eq_getElem zones dZ hi]
  exact hval.1 _ (List.getElem_mem hi)

theorem validZones_pair {zones : List Scene} {total : Nat}
    (hval : ValidZones zones total) {i j : Nat} (hij : i < j) (hj : j < zones.length) :
    (zones.getD i dZ).end_frame ≤ (zones.getD j dZ).start_frame := by
  have hi : i < zones.length := Nat.lt_trans hij hj
  rw [List.getD_eq_getElem zones dZ hi, List.getD_eq_getElem zones dZ hj]
  exact (List.pairwise_iff_getElem.mp hval.2) i j hi hj hij

theorem find?_eq_getD {α : Type} (p : α → Bool) (d : α) :
    ∀ (l : List α) (k : Nat), k < l.length →
      (∀ j, j < k → p (l.getD j d) = false) → p (l.getD k d) = true →
      l.find? p = some (l.getD k d)
  | [], k, hk, _, _ => absurd hk (by simp)
  | a :: t, 0, _, _, hp => by
    rw [List.getD_cons_zero] at hp ⊢
    exact List.find?_cons_of_pos t hp
  | a :: t, k + 1, hk, hbef, hp => by
    have ha : p a = false := by
      have h0 := hbef 0 (Nat.succ_pos k)
      rwa [List.getD_cons_zero] at h0
    rw [List.getD_cons_succ] at hp
    rw [List.getD_cons_succ]
    rw [List.find?_cons_of_neg t (by simp [ha])]
    refine find?_eq_getD p d t k (Nat.lt_of_succ_lt_succ hk) ?_ hp
    intro j hj
    have hj1 := hbef (j + 1) (Nat.succ_lt_succ hj)
    rwa [List.getD_cons_succ] at hj1

/-- At the top of each loop iteration, the analyzer invocation that the loop
records satisfies the per-call property demanded by claim C7. -/
theorem sdCall_good {zones : List Scene} {total : Nat} (gMin : Nat)
    {scenes : List Scene} {cz ni : Option Nat} {fr : Nat}
    (hval : ValidZones zones total)
    (hinv : SDInv zones total scenes cz ni fr) :
    SDCallGood zones gMin ⟨fr, sdMinLen zones gMin cz, sdFrameLimit zones cz ni fr⟩ := by
  unfold SDCallGood
  dsimp only
  constructor
  · intro z hz hzs hze
    obtain ⟨j, hj, hzj⟩ := List.mem_iff_getElem.mp hz
    have hzj1 : zones.getD j dZ = z := by rw [List.getD_eq_getElem zones dZ hj, hzj]
    cases hcz : cz with
    | none =>
      exfalso
      cases hni : ni with
      | some k =>
        obtain ⟨hk, hbef, hfrk⟩ := hinv.gapNi k hcz hni
        rcases Nat.lt_or_ge j k with hjk | hjk
        · have h1 := hbef j hjk
          rw [hzj1] at h1
          omega
        · rcases Nat.eq_or_lt_of_le hjk with hjk1 | hjk1
          · subst hjk1
            rw [hzj1] at hfrk
            omega
          · have h1 := validZones_pair hval hjk1 hj
            have h2 := validZones_bounds hval hk
            rw [hzj1] at h1
            omega
      | none =>
        have h1 := (hinv.eofSt hcz hni).1 j hj
        rw [hzj1] at h1
        omega
    | some i =>
      obtain ⟨hi, hstart⟩ := hinv.czMem i hcz
      have hji : j = i := by
        rcases Nat.lt_trichotomy j i with h | h | h
        · have h1 := validZones_pair hval h hi
          rw [hzj1] at h1
          omega
        · exact h
        · have h1 := validZones_pair hval h hj
          have h2 := validZones_bounds hval hi
          rw [hzj1] at h1
          omega
      subst hji
      constructor
      · intro o ho
        simp only [sdMinLen]
        rw [hzj1, ho]
      · simp only [sdFrameLimit]
        rw [hzj1]
  · intro hnone
    cases hcz : cz with
    | some i =>
      exfalso
      obtain ⟨hi, hstart⟩ := hinv.czMem i hcz
      have hb := validZones_bounds hval hi
      have hmem : zones.getD i dZ ∈ zones := by
        rw [List.getD_eq_getElem zones dZ hi]
        exact List.getElem_mem hi
      exact hnone _ hmem ⟨Nat.le_of_eq hstart, by omega⟩
    | none =>
      refine ⟨rfl, ?_⟩
      cases hni : ni with
      | some k =>
        obtain ⟨hk, hbef, hfrk⟩ := hinv.gapNi k hcz hni
        have hfind : zones.find? (fun z => decide (fr < z.start_frame)) =
            some (zones.getD k dZ) := by
          refine find?_eq_getD _ dZ zones k hk ?_ ?_
          · intro j hj
            have h1 := hbef j hj
            have h2 := validZones_bounds hval (Nat.lt_trans hj hk)
            simp only [decide_eq_false_iff_not, not_lt]
            omega
          · simp only [decide_eq_true_eq]
            exact hfrk
        rw [hfind]
        simp [sdFrameLimit]
      | none =>
        have hfind : zones.find? (fun z => decide (fr < z.start_frame)) = none := by
          rw [List.find?_eq_none]
          intro z hz
          obtain ⟨j, hj, hzj⟩ := List.mem_iff_getElem.mp hz
          have h1 := (hinv.eofSt hcz hni).1 j hj
          have h2 := validZones_bounds hval hj
          rw [List.getD_eq_getElem zones dZ hj, hzj] at h1 h2
          simp only [decide_eq_true_eq, not_lt]
          omega
        rw [hfind]
        simp [sdFrameLimit]

/-! ## Soundness of the scene-detection loop -/

theorem callsStep {zones : List Scene} {gMin : Nat} {calls : List SDCall}
    {entry : SDCall} {tr : List SDCall}
    (hgood : SDCallGood zones gMin entry)
    (h : ∀ e ∈ tr, e ∈ calls ++ [entry] ∨ SDCallGood zones gMin e) :
    ∀ e ∈ tr, e ∈ calls ∨ SDCallGood zones gMin e := by
  intro e he
  rcases h e he with hm | hg
  · rcases List.mem_append.mp hm with hm | hm
    · exact Or.inl hm
    · have he1 := List.mem_singleton.mp hm
      subst he1
      exact Or.inr hgood
  · exact Or.inr hg

/-- Re-establishing the invariant when the loop enters zone `k`
(scene_detect.rs lines 192–198). -/
theorem sdInv_enter {zones : List Scene} {total : Nat}
    (hval : ValidZones zones total) {scenes2 : List Scene} {fr1 k : Nat}
    (htiles : TilesSeg 0 scenes2 fr1) (hk : k < zones.length)
    (hstart : (zones.getD k dZ).start_frame = fr1) :
    SDInv zones total scenes2 (some k)
      (if k + 1 == zones.length then none else some (k + 1)) fr1 := by
  have hb := validZones_bounds hval hk
  constructor
  · exact htiles
  · omega
  · intro i h
    cases h
    exact ⟨hk, hstart⟩
  · intro i k' hi hk'
    cases hi
    rcases hbe : (k + 1 == zones.length) with _ | _
    · rw [hbe] at hk'
      simp only [Bool.false_eq_true, if_false, Option.some_inj] at hk'
      have : k + 1 ≠ zones.length := by simpa using hbe
      omega
    · rw [hbe] at hk'
      simp at hk'
  · intro i hi hk'
    cases hi
    rcases hbe : (k + 1 == zones.length) with _ | _
    · rw [hbe] at hk'
      simp at hk'
    · simpa using hbe
  · intro k' h
    cases h
  · intro h
    cases h

/-- Re-establishing the invariant when the loop leaves a zone without entering
the next one (scene_detect.rs lines 199–201). -/
theorem sdInv_skip {zones : List Scene} {total : Nat} {scenes2 : List Scene} {fr1 k : Nat}
    (htiles : TilesSeg 0 scenes2 fr1) (hle : fr1 ≤ total) (hk : k < zones.length)
    (hb : ∀ j, j < k → (zones.getD j dZ).end_frame ≤ fr1)
    (hlt : fr1 < (zones.getD k dZ).start_frame) :
    SDInv zones total scenes2 none (some k) fr1 := by
  constructor
  · exact htiles
  · exact hle
  · intro i h; cases h
  · intro i k' h; cases h
  · intro i h; cases h
  · intro k' _ hk'
    cases hk'
    exact ⟨hk, hb, hlt⟩
  · intro _ h; cases h

/-- Re-establishing the invariant when the last zone ends before the end of the
clip (scene_detect.rs lines 202–207). -/
theorem sdInv_eof {zones : List Scene} {total : Nat} {scenes2 : List Scene} {fr1 : Nat}
    (htiles : TilesSeg 0 scenes2 fr1)
    (hall : ∀ j, j < zones.length → (zones.getD j dZ).end_frame ≤ fr1)
    (hlt : fr1 < total) :
    SDInv zones total scenes2 none none fr1 := by
  constructor
  · exact htiles
  · omega
  · intro i h; cases h
  · intro i k' h; cases h
  · intro i h; cases h
  · intro k' _ h; cases h
  · intro _ _
    exact ⟨hall, hlt⟩

theorem sceneDetectGo_sound (az : Analyzer) (zones : List Scene) (total gMin : Nat)
    (hval : ValidZones zones total) (haz : AnalyzerGood az total) :
    ∀ (fuel : Nat) (scenes : List Scene) (cz ni : Option Nat) (fr : Nat)
      (calls : List SDCall) (out : List Scene) (tr : List SDCall),
      SDInv zones total scenes cz ni fr →
      sceneDetectGo az zones total gMin fuel scenes cz ni fr calls = some (out, tr) →
      TilesSeg 0 out total ∧ ∀ e ∈ tr, e ∈ calls ∨ SDCallGood zones gMin e := by
  intro fuel
  induction fuel with
  | zero =>
    intro scenes cz ni fr calls out tr hinv hres
    simp [sceneDetectGo] at hres
  | succ n ih =>
    intro scenes cz ni fr calls out tr hinv hres
    have hgood := sdCall_good gMin hval hinv
    rw [sceneDetectGo.eq_def] at hres
    dsimp only at hres
    cases cz with
    | some i =>
      obtain ⟨hi, hstart⟩ := hinv.czMem i rfl
      have hbi := validZones_bounds hval hi
      cases ni with
      | some k =>
        obtain ⟨hk1, hk2⟩ := hinv.czNi i k rfl rfl
        simp only [sdMinLen, sdFrameLimit] at hres hgood
        split at hres
        case isFalse => exact absurd hres (by simp)
        case isTrue hok =>
          rw [beq_iff_eq] at hok
          obtain ⟨hch, hhd, hlt, _⟩ := haz fr
            (match (zones.getD i dZ).zone_overrides with
              | some o => o.min_scene_len
              | none => gMin)
            (some ((zones.getD i dZ).end_frame - (zones.getD i dZ).start_frame))
          have hcnt : 0 < (zones.getD i dZ).end_frame - (zones.getD i dZ).start_frame := by
            omega
          have htiles2 := sdAppendScenes_tiles scenes fr
            ((zones.getD i dZ).end_frame - (zones.getD i dZ).start_frame)
            (zones.getD i dZ).zone_overrides _ hinv.tiles hch hhd
            (by rw [← hok] at hlt; exact hlt) hcnt
          have hfrE : fr + ((zones.getD i dZ).end_frame - (zones.getD i dZ).start_frame) =
              (zones.getD i dZ).end_frame := by omega
          split at hres
          case isTrue hb =>
            rw [Option.all_some, beq_iff_eq] at hb
            have hinv2 := sdInv_enter hval htiles2 hk2
              (by show (zones.getD k dZ).start_frame =
                    fr + ((zones.getD i dZ).end_frame - (zones.getD i dZ).start_frame)
                  omega)
            obtain ⟨hT, hC⟩ := ih _ _ _ _ _ out tr hinv2 hres
            exact ⟨hT, callsStep hgood hC⟩
          case isFalse hb =>
            rw [Option.all_some, beq_iff_eq] at hb
            have hpair := validZones_pair hval (show i < k by omega) hk2
            have hb1 : ∀ j, j < k → (zones.getD j dZ).end_frame ≤
                fr + ((zones.getD i dZ).end_frame - (zones.getD i dZ).start_frame) := by
              intro j hj
              rcases Nat.lt_or_ge j i with hji | hji
              · have := validZones_pair hval hji hi
                omega
              · have hji1 : j = i := by omega
                subst hji1
                omega
            have hinv2 := sdInv_skip htiles2
              (by show fr + ((zones.getD i dZ).end_frame -
                    (zones.getD i dZ).start_frame) ≤ total
                  omega)
              hk2 hb1
              (by show fr + ((zones.getD i dZ).end_frame -
                    (zones.getD i dZ).start_frame) < (zones.getD k dZ).start_frame
                  omega)
            obtain ⟨hT, hC⟩ := ih _ _ _ _ _ out tr hinv2 hres
            exact ⟨hT, callsStep hgood hC⟩
      | none =>
        have hlast := hinv.czNiNone i rfl rfl
        simp only [sdMinLen, sdFrameLimit] at hres hgood
        split at hres
        case isFalse => exact absurd hres (by simp)
        case isTrue hok =>
          rw [beq_iff_eq] at hok
          obtain ⟨hch, hhd, hlt, _⟩ := haz fr
            (match (zones.getD i dZ).zone_overrides with
              | some o => o.min_scene_len
              | none => gMin)
            (some ((zones.getD i dZ).end_frame - (zones.getD i dZ).start_frame))
          have hcnt : 0 < (zones.getD i dZ).end_frame - (zones.getD i dZ).start_frame := by
            omega
          have htiles2 := sdAppendScenes_tiles scenes fr
            ((zones.getD i dZ).end_frame - (zones.getD i dZ).start_frame)
            (zones.getD i dZ).zone_overrides _ hinv.tiles hch hhd
            (by rw [← hok] at hlt; exact hlt) hcnt
          have hfrE : fr + ((zones.getD i dZ).end_frame - (zones.getD i dZ).start_frame) =
              (zones.getD i dZ).end_frame := by omega
          split at hres
          case isTrue hb =>
            rw [Option.all_some, beq_iff_eq] at hb
            rw [Option.some_inj, Prod.mk.injEq] at hres
            obtain ⟨ho, hc⟩ := hres
            subst ho
            subst hc
            constructor
            · have hft : fr + ((zones.getD i dZ).end_frame -
                  (zones.getD i dZ).start_frame) = total := by omega
              rw [← hft]
              exact htiles2
            · intro e he
              rcases List.mem_append.mp he with hm | hm
              · exact Or.inl hm
              · have he1 := List.mem_singleton.mp hm
                subst he1
                exact Or.inr hgood
          case isFalse hb =>
            rw [Option.all_some, beq_iff_eq] at hb
            have hall1 : ∀ j, j < zones.length → (zones.getD j dZ).end_frame ≤
                fr + ((zones.getD i dZ).end_frame - (zones.getD i dZ).start_frame) := by
              intro j hj
              rcases Nat.lt_trichotomy j i with h | h | h
              · have := validZones_pair hval h hi
                omega
              · subst h
                omega
              · omega
            have hinv2 := sdInv_eof htiles2 hall1
              (by show fr + ((zones.getD i dZ).end_frame -
                    (zones.getD i dZ).start_frame) < total
                  omega)
            obtain ⟨hT, hC⟩ := ih _ _ _ _ _ out tr hinv2 hres
            exact ⟨hT, callsStep hgood hC⟩
    | none =>
      cases ni with
      | some k =>
        obtain ⟨hk, hbef, hfrk⟩ := hinv.gapNi k rfl rfl
        simp only [sdMinLen, sdFrameLimit] at hres hgood
        split at hres
        case isFalse => exact absurd hres (by simp)
        case isTrue hok =>
          rw [beq_iff_eq] at hok
          obtain ⟨hch, hhd, hlt, _⟩ := haz fr gMin
            (some ((zones.getD k dZ).start_frame - fr))
          have hcnt : 0 < (zones.getD k dZ).start_frame - fr := by omega
          have htiles2 := sdAppendScenes_tiles scenes fr
            ((zones.getD k dZ).start_frame - fr) none _ hinv.tiles hch hhd
            (by rw [← hok] at hlt; exact hlt) hcnt
          simp only [Option.all_none, if_true] at hres
          have hinv2 := sdInv_enter hval htiles2 hk
            (by show (zones.getD k dZ).start_frame =
                  fr + ((zones.getD k dZ).start_frame - fr)
                omega)
          obtain ⟨hT, hC⟩ := ih _ _ _ _ _ out tr hinv2 hres
          exact ⟨hT, callsStep hgood hC⟩
      | none =>
        obtain ⟨hall, hfrt⟩ := hinv.eofSt rfl rfl
        simp only [sdMinLen, sdFrameLimit] at hres hgood
        obtain ⟨hch, hhd, hlt, hcEof⟩ := haz fr gMin none
        have hcnt : 0 < total - fr := by omega
        have htiles2 := sdAppendScenes_tiles scenes fr (total - fr) none _
          hinv.tiles hch hhd (by rw [hcEof rfl] at hlt; exact hlt) hcnt
        have hft : fr + (total - fr) = total := by omega
        rw [hft] at htiles2
        simp only [Option.all_none, if_true] at hres
        rw [Option.some_inj, Prod.mk.injEq] at hres
        obtain ⟨ho, hc⟩ := hres
        subst ho
        subst hc
        constructor
        · exact htiles2
        · intro e he
          rcases List.mem_append.mp he with hm | hm
          · exact Or.inl hm
          · have he1 := List.mem_singleton.mp hm
            subst he1
            exact Or.inr hgood

/-! ## Claim theorems -/

/-- Claim C1: for every input with `total_frames > 0` and a valid sorted zone
list (and a well-behaved external analyzer), the scenes returned by
`scene_detect` tile `[0, total_frames)`: the list is non-empty, the first
scene starts at 0, each scene's end is the next scene's start, the last
scene ends at `total_frames`, every scene is non-empty, and the list is
sorted by `start_frame`. -/
theorem claim_C1 (az : Analyzer) (zones : List Scene) (total gMin fuel : Nat)
    (out : List Scene) (tr : List SDCall)
    (hval : ValidZones zones total) (haz : AnalyzerGood az total) (htot : 0 < total)
    (hres : scene_detect az zones total gMin fuel = some (out, tr)) :
    out ≠ [] ∧
    out.head?.map Scene.start_frame = some 0 ∧
    out.getLast?.map Scene.end_frame = some total ∧
    List.Chain' (fun u v => u.end_frame = v.start_frame) out ∧
    (∀ s ∈ out, s.start_frame < s.end_frame) ∧
    List.Chain' (fun u v => u.start_frame < v.start_frame) out := by
  unfold scene_detect at hres
  have hT : TilesSeg 0 out total := by
    cases zones with
    | nil =>
      simp only [List.head?_nil, List.isEmpty_nil, if_true] at hres
      have hinv : SDInv ([] : List Scene) total [] none none 0 := by
        constructor
        · exact rfl
        · exact Nat.zero_le total
        · intro i h; cases h
        · intro i k h _; cases h
        · intro i h _; cases h
        · intro k _ h; cases h
        · intro _ _
          exact ⟨fun j hj => absurd hj (by simp), htot⟩
      exact (sceneDetectGo_sound az [] total gMin hval haz fuel [] none none 0 []
        out tr hinv hres).1
    | cons z zs =>
      simp only [List.head?_cons, List.isEmpty_cons] at hres
      by_cases hz0 : z.start_frame = 0
      · simp only [hz0, if_true, Option.isSome_some, Bool.false_eq_true, if_false] at hres
        by_cases hlen1 : (z :: zs).length = 1
        · rw [if_pos hlen1] at hres
          have hinv : SDInv (z :: zs) total [] (some 0) none 0 := by
            constructor
            · exact rfl
            · exact Nat.zero_le total
            · intro i h
              cases h
              exact ⟨Nat.succ_pos _, by simpa [List.getD_cons_zero] using hz0⟩
            · intro i k _ hk; cases hk
            · intro i hi _
              cases hi
              omega
            · intro k h; cases h
            · intro h; cases h
          exact (sceneDetectGo_sound az (z :: zs) total gMin hval haz fuel [] (some 0)
            none 0 [] out tr hinv hres).1
        · rw [if_neg hlen1] at hres
          have hinv : SDInv (z :: zs) total [] (some 0) (some 1) 0 := by
            constructor
            · exact rfl
            · exact Nat.zero_le total
            · intro i h
              cases h
              exact ⟨Nat.succ_pos _, by simpa [List.getD_cons_zero] using hz0⟩
            · intro i k hi hk
              cases hi
              cases hk
              have : (z :: zs).length = zs.length + 1 := rfl
              omega
            · intro i _ hk; cases hk
            · intro k h; cases h
            · intro h; cases h
          exact (sceneDetectGo_sound az (z :: zs) total gMin hval haz fuel [] (some 0)
            (some 1) 0 [] out tr hinv hres).1
      · simp only [hz0, if_false, Option.isSome_none, Bool.false_eq_true, if_false] at hres
        have hinv : SDInv (z :: zs) total [] none (some 0) 0 := by
          constructor
          · exact rfl
          · exact Nat.zero_le total
          · intro i h; cases h
          · intro i k h; cases h
          · intro i h; cases h
          · intro k _ hk
            cases hk
            refine ⟨Nat.succ_pos _, fun j hj => absurd hj (by simp), ?_⟩
            rw [List.getD_cons_zero]
            omega
          · intro _ h; cases h
        exact (sceneDetectGo_sound az (z :: zs) total gMin hval haz fuel [] none
          (some 0) 0 [] out tr hinv hres).1
  have hne : out ≠ [] := by
    intro h
    subst h
    have h0 : (0 : Nat) = total := hT
    omega
  exact ⟨hne, tilesSeg_head hT hne, tilesSeg_last hT hne, tilesSeg_chain hT,
    tilesSeg_nonempty_each hT, tilesSeg_sorted hT⟩

/-- Claim C7: in each loop iteration of `scene_detect`, the analyzer is
invoked with `min_scene_len` from the zone containing `frames_read` (the
global value otherwise) and with `frame_limit` equal to the containing zone's
length, else the distance from `frames_read` to the first zone past it, else
no limit (`SDCallGood` spells these three cases out). -/
theorem claim_C7 (az : Analyzer) (zones : List Scene) (total gMin fuel : Nat)
    (out : List Scene) (tr : List SDCall)
    (hval : ValidZones zones total) (haz : AnalyzerGood az total) (htot : 0 < total)
    (hres : scene_detect az zones total gMin fuel = some (out, tr)) :
    ∀ e ∈ tr, SDCallGood zones gMin e := by
  unfold scene_detect at hres
  have hC : ∀ e ∈ tr, e ∈ ([] : List SDCall) ∨ SDCallGood zones gMin e := by
    cases zones with
    | nil =>
      simp only [List.head?_nil, List.isEmpty_nil, if_true] at hres
      have hinv : SDInv ([] : List Scene) total [] none none 0 := by
        constructor
        · exact rfl
        · exact Nat.zero_le total
        · intro i h; cases h
        · intro i k h _; cases h
        · intro i h _; cases h
        · intro k _ h; cases h
        · intro _ _
          exact ⟨fun j hj => absurd hj (by simp), htot⟩
      exact (sceneDetectGo_sound az [] total gMin hval haz fuel [] none none 0 []
        out tr hinv hres).2
    | cons z zs =>
      simp only [List.head?_cons, List.isEmpty_cons] at hres
      by_cases hz0 : z.start_frame = 0
      · simp only [hz0, if_true, Option.isSome_some, Bool.false_eq_true, if_false] at hres
        by_cases hlen1 : (z :: zs).length = 1
        · rw [if_pos hlen1] at hres
          have hinv : SDInv (z :: zs) total [] (some 0) none 0 := by
            constructor
            · exact rfl
            · exact Nat.zero_le total
            · intro i h
              cases h
              exact ⟨Nat.succ_pos _, by simpa [List.getD_cons_zero] using hz0⟩
            · intro i k _ hk; cases hk
            · intro i hi _
              cases hi
              omega
            · intro k h; cases h
            · intro h; cases h
          exact (sceneDetectGo_sound az (z :: zs) total gMin hval haz fuel [] (some 0)
            none 0 [] out tr hinv hres).2
        · rw [if_neg hlen1] at hres
          have hinv : SDInv (z :: zs) total [] (some 0) (some 1) 0 := by
            constructor
            · exact rfl
            · exact Nat.zero_le total
            · intro i h
              cases h
              exact ⟨Nat.succ_pos _, by simpa [List.getD_cons_zero] using hz0⟩
            · intro i k hi hk
              cases hi
              cases hk
              have : (z :: zs).length = zs.length + 1 := rfl
              omega
            · intro i _ hk; cases hk
            · intro k h; cases h
            · intro h; cases h
          exact (sceneDetectGo_sound az (z :: zs) total gMin hval haz fuel [] (some 0)
            (some 1) 0 [] out tr hinv hres).2
      · simp only [hz0, if_false, Option.isSome_none, Bool.false_eq_true, if_false] at hres
        have hinv : SDInv (z :: zs) total [] none (some 0) 0 := by
          constructor
          · exact rfl
          · exact Nat.zero_le total
          · intro i h; cases h
          · intro i k h; cases h
          · intro i h; cases h
          · intro k _ hk
            cases hk
            refine ⟨Nat.succ_pos _, fun j hj => absurd hj (by simp), ?_⟩
            rw [List.getD_cons_zero]
            omega
          · intro _ h; cases h
        exact (sceneDetectGo_sound az (z :: zs) total gMin hval haz fuel [] none
          (some 0) 0 [] out tr hinv hres).2
  intro e he
  rcases hC e he with h | h
  · cases h
  · exact h

theorem azW_good : AnalyzerGood azW 10 := by
  intro fr msl lim
  refine ⟨List.chain'_nil, ?_, ?_, ?_⟩
  · intro h; exact absurd rfl h
  · intro c hc; cases hc
  · intro hl
    subst hl
    rfl

theorem azW3_good : AnalyzerGood azW3 3 := by
  intro fr msl lim
  refine ⟨List.chain'_nil, ?_, ?_, ?_⟩
  · intro h; exact absurd rfl h
  · intro c hc; cases hc
  · intro hl
    subst hl
    rfl

theorem validZones_nil : ValidZones ([] : List Scene) 10 :=
  ⟨fun z hz => absurd hz (List.not_mem_nil z), List.Pairwise.nil⟩

theorem claim_C1_witness :
    ValidZones ([] : List Scene) 10 ∧ AnalyzerGood azW 10 ∧ 0 < 10 ∧
    ([({ start_frame := 0, end_frame := 10, zone_overrides := none } : Scene)] ≠ [] ∧
     ([({ start_frame := 0, end_frame := 10, zone_overrides := none } : Scene)].head?.map
        Scene.start_frame = some 0) ∧
     ([({ start_frame := 0, end_frame := 10, zone_overrides := none } : Scene)].getLast?.map
        Scene.end_frame = some 10) ∧
     List.Chain' (fun u v => u.end_frame = v.start_frame)
       [({ start_frame := 0, end_frame := 10, zone_overrides := none } : Scene)] ∧
     (∀ s ∈ [({ start_frame := 0, end_frame := 10, zone_overrides := none } : Scene)],
        s.start_frame < s.end_frame) ∧
     List.Chain' (fun u v => u.start_frame < v.start_frame)
       [({ start_frame := 0, end_frame := 10, zone_overrides := none } : Scene)]) :=
  ⟨validZones_nil, azW_good, by decide,
    claim_C1 azW [] 10 1 1
      [{ start_frame := 0, end_frame := 10, zone_overrides := none }]
      [{ framesRead := 0, minLen := 1, frameLimit := none }]
      validZones_nil azW_good (by decide) rfl⟩

theorem validZones_zonesW : ValidZones zonesW 3 := by
  constructor
  · intro z hz
    rcases List.mem_singleton.mp hz with rfl
    exact ⟨by decide, by decide⟩
  · exact List.pairwise_singleton _ _

theorem claim_C7_witness :
    ValidZones zonesW 3 ∧ AnalyzerGood azW3 3 ∧ 0 < 3 ∧
    (∀ e ∈ [({ framesRead := 0, minLen := 5, frameLimit := some 1 } : SDCall),
            { framesRead := 1, minLen := 2, frameLimit := some 1 },
            { framesRead := 2, minLen := 5, frameLimit := none }],
       SDCallGood zonesW 5 e) :=
  ⟨validZones_zonesW, azW3_good, by decide,
    claim_C7 azW3 zonesW 3 5 3
      [{ start_frame := 0, end_frame := 1, zone_overrides := none },
       { start_frame := 1, end_frame := 2, zone_overrides := some ovW },
       { start_frame := 2, end_frame := 3, zone_overrides := none }]
      [{ framesRead := 0, minLen := 5, frameLimit := some 1 },
       { framesRead := 1, minLen := 2, frameLimit := some 1 },
       { framesRead := 2, minLen := 5, frameLimit := none }]
      validZones_zonesW azW3_good (by decide) rfl⟩

/-- Claim C3: after initialization the run proceeds as a resume iff the resume
flag was set and both `done.json` and `chunks.json` exist in the temp
directory; in every other combination the flag is cleared, a message is
surfaced, and a fresh done-record is initialized (the run falls back to a
fresh run instead of aborting). -/
theorem claim_C3 :
    ∀ resume done_json_exists chunks_json_exists : Bool,
      ((initializeResume resume done_json_exists chunks_json_exists).resume = true ↔
        (resume = true ∧ done_json_exists = true ∧ chunks_json_exists = true)) ∧
      ((initializeResume resume done_json_exists chunks_json_exists).warned = true ↔
        (resume = true ∧ ¬(done_json_exists = true ∧ chunks_json_exists = true))) ∧
      ((initializeResume resume done_json_exists chunks_json_exists).resume = false →
        (initializeResume resume done_json_exists chunks_json_exists).freshDoneInit = true) := by
  decide

/-- Claim C6: the intermediate ffmpeg filter stage is spawned iff the user's
filter args are non-empty, or the declared input pixel format differs from the
target output format, or the declared input bit depth differs from the target
bit depth. -/
theorem claim_C6 :
    ∀ (ffmpeg_filter_args : List String) (input_pix_format : InputPixelFormat)
      (output_pix_format : PixelFormat),
      filter_stage_spawned ffmpeg_filter_args input_pix_format output_pix_format = true ↔
        filter_stage_needed_spec ffmpeg_filter_args input_pix_format output_pix_format := by
  intro fa ipf opf
  unfold filter_stage_spawned filter_stage_needed_spec
  cases ipf with
  | ffmpeg fmt =>
    cases fa with
    | cons a l => simp
    | nil =>
      by_cases heq : opf.format = fmt
      · simp [heq]
      · simp [heq, Ne.symm heq]
  | vapoursynth bd =>
    cases fa with
    | cons a l => simp
    | nil =>
      by_cases heq : opf.bit_depth = bd
      · simp [heq]
      · simp [heq, Ne.symm heq]

theorem updateFrame_eq_max (a : Nat) (n : Nat) : updateFrame a (some n) = Nat.max a n := by
  simp only [updateFrame]
  split
  · exact (Nat.max_eq_right (Nat.le_of_lt (by assumption))).symm
  · exact (Nat.max_eq_left (Nat.le_of_not_lt (by assumption))).symm

/-- Claim C10: the frame counter parsed from the encoder's stderr is updated
only when a newly parsed value is strictly greater, so it is monotonically
non-decreasing across the stream, the value returned with an `EncoderCrash`
(`framesBeforeCrash`) equals the maximum value ever parsed, and every
progress-bar increment is a positive delta `new - frame` taken exactly when
`frame < new`. -/
theorem claim_C10 :
    ∀ parsedSeq : List (Option Nat),
      framesBeforeCrash parsedSeq = (parsedSeq.filterMap id).foldl Nat.max 0 ∧
      (∀ (pre : List (Option Nat)) (p : Option Nat),
        framesBeforeCrash pre ≤ framesBeforeCrash (pre ++ [p])) ∧
      (∀ f n, updateFrame f (some n) ≠ f → f < n) ∧
      (∀ f p, 0 < barInc f p ↔ ∃ n, p = some n ∧ f < n) ∧
      (∀ f n, f < n → barInc f (some n) = n - f ∧ updateFrame f (some n) = n) := by
  have hfold : ∀ (ps : List (Option Nat)) (a : Nat),
      ps.foldl updateFrame a = (ps.filterMap id).foldl Nat.max a := by
    intro ps
    induction ps with
    | nil => intro a; rfl
    | cons p rest ihp =>
      intro a
      cases p with
      | none => simpa using ihp a
      | some n =>
        simp only [List.foldl_cons, List.filterMap_cons_some, id]
        rw [updateFrame_eq_max]
        exact ihp _
  intro parsedSeq
  refine ⟨hfold parsedSeq 0, ?_, ?_, ?_, ?_⟩
  · intro pre p
    unfold framesBeforeCrash
    rw [List.foldl_append]
    cases p with
    | none => exact Nat.le_refl _
    | some n =>
      simp only [List.foldl_cons, List.foldl_nil, updateFrame_eq_max]
      exact Nat.le_max_left _ _
  · intro f n h
    simp only [updateFrame] at h
    by_cases hlt : f < n
    · exact hlt
    · rw [if_neg hlt] at h
      exact absurd rfl h
  · intro f p
    cases p with
    | none => simp [barInc]
    | some n =>
      simp only [barInc]
      constructor
      · intro h
        refine ⟨n, rfl, ?_⟩
        by_cases hlt : f < n
        · exact hlt
        · rw [if_neg hlt] at h
          omega
      · rintro ⟨m, hm, hlt⟩
        cases hm
        rw [if_pos hlt]
        omega
  · intro f n hlt
    simp only [barInc, updateFrame]
    rw [if_pos hlt, if_pos hlt]
    exact ⟨rfl, rfl⟩

/-- Claim C5: when the encoder subprocess of the final pass
(`current_pass = chunk.passes`) exits successfully and the external probe of
the output file yields `n` frames, `create_pipes` returns an `EncoderCrash`
whose synthetic stdout is the `"FRAME MISMATCH: chunk …"` string exactly when
`n` differs from `chunk.end_frame - chunk.start_frame` and
`ignore_frame_mismatch` is unset, and returns `Ok` when the counts match or
the mismatch is ignored. -/
theorem claim_C5 (chunk : Chunk) (current_pass : Nat)
    (enc_stdout source_pipe_stderr : String) (ffmpeg_pipe_stderr : Option String)
    (enc_stderr : String) (frame : Nat) (n : Nat)
    (hpass : current_pass = chunk.passes) :
    (chunk.ignore_frame_mismatch = false → n ≠ chunk.frames →
      create_pipes_verify chunk current_pass true enc_stdout source_pipe_stderr
        ffmpeg_pipe_stderr enc_stderr frame (Except.ok n) =
      Except.error ({ exit_success := true
                      source_pipe_stderr := source_pipe_stderr
                      ffmpeg_pipe_stderr := ffmpeg_pipe_stderr
                      stderr := enc_stderr
                      stdout := frameMismatchMsg chunk.index n chunk.frames }, frame)) ∧
    ((n = chunk.frames ∨ chunk.ignore_frame_mismatch = true) →
      create_pipes_verify chunk current_pass true enc_stdout source_pipe_stderr
        ffmpeg_pipe_stderr enc_stderr frame (Except.ok n) = Except.ok ()) := by
  constructor
  · intro hig hne
    unfold create_pipes_verify
    rw [hpass]
    simp [hig, hne]
  · intro h
    unfold create_pipes_verify
    rw [hpass]
    rcases h with h | h
    · simp [h]
    · simp [h]

theorem claim_C5_witness :
    (1 = chunkW.passes) ∧
    create_pipes_verify chunkW 1 true "out" "src" none "err" 0 (Except.ok 4) =
      Except.error ({ exit_success := true
                      source_pipe_stderr := "src"
                      ffmpeg_pipe_stderr := none
                      stderr := "err"
                      stdout := frameMismatchMsg 3 4 5 }, 0) :=
  ⟨rfl, (claim_C5 chunkW 1 "out" "src" none "err" 0 4 rfl).1 rfl (by decide)⟩

/-- Claim C4: on a resume run, `load_or_gen_chunk_queue` returns exactly the
stored chunks (from `chunks.json`) whose name is not in the done set, in their
stored order and otherwise unmodified (a sublist of the stored list), together
with the length of the full stored list as the total chunk count. -/
theorem claim_C4 (args : EncodeArgs) (stored : List Chunk) (doneNames : List String)
    (splits : List Scene) (total : Nat) (ext : Externals) (rng : Nat → Nat)
    (hresume : args.resume = true) :
    load_or_gen_chunk_queue args stored doneNames splits total ext rng =
      some (stored.filter fun c => !(doneNames.contains c.name), stored.length) ∧
    (stored.filter fun c => !(doneNames.contains c.name)).Sublist stored ∧
    (∀ c ∈ stored.filter fun c => !(doneNames.contains c.name),
      doneNames.contains c.name = false) ∧
    (∀ c ∈ stored, doneNames.contains c.name = false →
      c ∈ stored.filter fun c => !(doneNames.contains c.name)) := by
  refine ⟨?_, List.filter_sublist stored, ?_, ?_⟩
  · unfold load_or_gen_chunk_queue
    simp [hresume]
  · intro c hc
    have h2 := (List.mem_filter.mp hc).2
    simpa using h2
  · intro c hc h
    exact List.mem_filter.mpr ⟨hc, by rw [h]; rfl⟩

theorem claim_C4_witness :
    (argsResumeW.resume = true) ∧
    load_or_gen_chunk_queue argsResumeW [chunk0W, chunk1W] ["00000"] [] 0 extW
        (fun _ => 0) =
      some ([chunk0W, chunk1W].filter fun c =>
        !((["00000"] : List String).contains c.name), 2) :=
  ⟨rfl, (claim_C4 argsResumeW [chunk0W, chunk1W] ["00000"] [] 0 extW
    (fun _ => 0) rfl).1⟩

/-- Claim C8: if the external splitter left zero `.mkv` files in `temp/split`,
the Segment planner fails (the `assert!` panic — the spec's `PlanningFailed`)
instead of returning a chunk list, and consequently `create_encoding_queue`
produces no queue at all, before any worker could start. -/
theorem claim_C8 (args : EncodeArgs) (scenes : List Scene) (total : Nat)
    (ext : Externals) (rng : Nat → Nat) (path : String) (st : Option String)
    (hmkv : ext.split_files.filter (fun f => f.endsWith ".mkv") = []) :
    create_video_queue_segment args scenes ext = none ∧
    (args.input = Input.video path st → args.chunk_method = ChunkMethod.segment →
      create_encoding_queue args scenes total ext rng = none) := by
  have hq : segQueueFiles ext.split_files = [] := by
    unfold segQueueFiles
    rw [hmkv]
    exact List.mergeSort_nil
  have hseg : create_video_queue_segment args scenes ext = none := by
    unfold create_video_queue_segment
    rw [hq]
    rfl
  refine ⟨hseg, ?_⟩
  intro hin hm
  unfold create_encoding_queue
  rw [hin, hm]
  simp [hseg]

theorem claim_C8_witness :
    (extW.split_files.filter (fun f => f.endsWith ".mkv") = []) ∧
    create_video_queue_segment argsSegW [] extW = none :=
  ⟨rfl, (claim_C8 argsSegW [] 0 extW (fun _ => 0) "in.mkv" none rfl).1⟩

/-! ## Permutation facts about the reorderings -/

theorem perm_get_cons_set {α : Type} : ∀ (l : List α) (k : Nat) (hk : k < l.length) (c : α),
    (l[k] :: l.set k c).Perm (c :: l)
  | b :: t, 0, _, c => by
    simp only [List.getElem_cons_zero, List.set_cons_zero]
    exact List.Perm.swap c b t
  | b :: t, k + 1, hk, c => by
    have hk1 : k < t.length := by simpa using hk
    simp only [List.getElem_cons_succ, List.set_cons_succ]
    exact ((List.Perm.swap b (t[k]) (t.set k c)).trans
      ((perm_get_cons_set t k hk1 c).cons b)).trans (List.Perm.swap c b t)

theorem set_set_perm {α : Type} : ∀ (l : List α) (i j : Nat) (hi : i < l.length)
    (hj : j < l.length), ((l.set i l[j]).set j l[i]).Perm l
  | a :: t, 0, 0, _, _ => by
    simp only [List.getElem_cons_zero, List.set_cons_zero]
    exact List.Perm.refl _
  | a :: t, 0, j + 1, hi, hj => by
    simp only [List.getElem_cons_zero, List.getElem_cons_succ, List.set_cons_zero,
      List.set_cons_succ]
    exact perm_get_cons_set t j (by simpa using hj) a
  | a :: t, i + 1, 0, hi, hj => by
    simp only [List.getElem_cons_zero, List.getElem_cons_succ, List.set_cons_zero,
      List.set_cons_succ]
    exact perm_get_cons_set t i (by simpa using hi) a
  | a :: t, i + 1, j + 1, hi, hj => by
    simp only [List.getElem_cons_succ, List.set_cons_succ]
    exact (set_set_perm t i j (by simpa using hi) (by simpa using hj)).cons a

theorem swapAt_perm {α : Type} [Inhabited α] (l : List α) (i j : Nat) :
    (swapAt l i j).Perm l := by
  unfold swapAt
  split
  case isTrue h =>
    rw [List.getD_eq_getElem l default h.2, List.getD_eq_getElem l default h.1]
    exact set_set_perm l i j h.1 h.2
  case isFalse h => exact List.Perm.refl l

theorem fyGo_perm {α : Type} [Inhabited α] (draws : Nat → Nat) :
    ∀ (n : Nat) (l : List α), (fyGo draws n l).Perm l
  | 0, l => List.Perm.refl l
  | n + 1, l =>
    (fyGo_perm draws n (swapAt l (n + 1) (draws (n + 1) % (n + 2)))).trans
      (swapAt_perm l (n + 1) (draws (n + 1) % (n + 2)))

theorem shuffleFY_perm {α : Type} [Inhabited α] (draws : Nat → Nat) (l : List α) :
    (shuffleFY draws l).Perm l :=
  fyGo_perm draws (l.length - 1) l

theorem applyChunkOrder_perm (ord : ChunkOrdering) (rng : Nat → Nat)
    (chunks : List Chunk) : (applyChunkOrder ord rng chunks).Perm chunks := by
  cases ord with
  | longest_first => exact List.mergeSort_perm chunks _
  | shortest_first => exact List.mergeSort_perm chunks _
  | sequential => exact List.Perm.refl chunks
  | random => exact shuffleFY_perm rng chunks

/-! ## Per-strategy facts about the planned queues -/

theorem create_select_chunk_spec (args : EncodeArgs) (index : Nat) (src : String)
    (s e : Nat) (fr : Rat) (ov : Option ZoneOptions) (c : Chunk)
    (h : create_select_chunk args index src s e fr ov = some c) :
    c.index = index ∧ c.start_frame = s ∧ c.end_frame = e := by
  unfold create_select_chunk at h
  split at h
  · simp only [Option.some_inj] at h
    subst h
    exact ⟨rfl, rfl, rfl⟩
  · cases h

theorem create_chunk_from_segment_spec (args : EncodeArgs) (index : Nat)
    (file : String) (fr : Rat) (ov : Option ZoneOptions)
    (probe : String → Option Nat) (c : Chunk)
    (h : create_chunk_from_segment args index file fr ov probe = some c) :
    c.index = index ∧ c.frames = (probe file).getD 0 := by
  unfold create_chunk_from_segment at h
  cases hp : probe file with
  | none => rw [hp] at h; cases h
  | some n =>
    rw [hp] at h
    simp only [Option.some_inj] at h
    subst h
    exact ⟨rfl, rfl⟩

theorem vsGo_map (args : EncodeArgs) (vs_script : String) (fr : Rat) :
    ∀ (k : Nat) (scenes : List Scene),
      (create_video_queue_vs_go args vs_script fr k scenes).map Chunk.index =
        List.range' k scenes.length ∧
      (create_video_queue_vs_go args vs_script fr k scenes).map Chunk.frames =
        scenes.map fun s => s.end_frame - s.start_frame
  | k, [] => ⟨rfl, rfl⟩
  | k, s :: rest => by
    obtain ⟨ih1, ih2⟩ := vsGo_map args vs_script fr (k + 1) rest
    simp only [create_video_queue_vs_go, List.map_cons, List.length_cons,
      List.range'_succ]
    constructor
    · rw [ih1]
      rfl
    · rw [ih2]
      rfl

theorem selectGo_map (args : EncodeArgs) (input : String) (fr : Rat) :
    ∀ (k : Nat) (scenes : List Scene) (out : List Chunk),
      create_video_queue_select_go args input fr k scenes = some out →
      out.map Chunk.index = List.range' k scenes.length ∧
      out.map Chunk.frames = scenes.map fun s => s.end_frame - s.start_frame
  | k, [], out, h => by
    simp only [create_video_queue_select_go, Option.some_inj] at h
    subst h
    exact ⟨rfl, rfl⟩
  | k, s :: rest, out, h => by
    simp only [create_video_queue_select_go] at h
    cases hc : create_select_chunk args k input s.start_frame s.end_frame fr
        s.zone_overrides with
    | none => rw [hc] at h; cases h
    | some c =>
      simp only [hc] at h
      cases hrec : create_video_queue_select_go args input fr (k + 1) rest with
      | none => rw [hrec] at h; cases h
      | some cs =>
        simp only [hrec, Option.some_inj] at h
        subst h
        obtain ⟨ih1, ih2⟩ := selectGo_map args input fr (k + 1) rest cs hrec
        obtain ⟨hidx, hs, he⟩ := create_select_chunk_spec args k input s.start_frame
          s.end_frame fr s.zone_overrides c hc
        have hcf : c.frames = s.end_frame - s.start_frame := by
          unfold Chunk.frames
          rw [hs, he]
        simp only [List.map_cons, List.length_cons, List.range'_succ]
        exact ⟨by rw [ih1, hidx], by rw [ih2, hcf]⟩

theorem segmentGo_map (args : EncodeArgs) (fr : Rat) (probe : String → Option Nat)
    (scenes : List Scene) :
    ∀ (k : Nat) (files : List String) (out : List Chunk),
      create_video_queue_segment_go args fr probe scenes k files = some out →
      out.map Chunk.index = List.range' k files.length ∧
      out.map Chunk.frames = files.map fun f => (probe f).getD 0
  | k, [], out, h => by
    simp only [create_video_queue_segment_go, Option.some_inj] at h
    subst h
    exact ⟨rfl, rfl⟩
  | k, f :: rest, out, h => by
    simp only [create_video_queue_segment_go] at h
    cases hsc : scenes.get? k with
    | none => rw [hsc] at h; cases h
    | some s =>
      simp only [hsc] at h
      cases hc : create_chunk_from_segment args k f fr s.zone_overrides probe with
      | none => rw [hc] at h; cases h
      | some c =>
        simp only [hc] at h
        cases hrec : create_video_queue_segment_go args fr probe scenes (k + 1) rest with
        | none => rw [hrec] at h; cases h
        | some cs =>
          simp only [hrec, Option.some_inj] at h
          subst h
          obtain ⟨ih1, ih2⟩ := segmentGo_map args fr probe scenes (k + 1) rest cs hrec
          obtain ⟨hidx, hcf⟩ := create_chunk_from_segment_spec args k f fr
            s.zone_overrides probe c hc
          simp only [List.map_cons, List.length_cons, List.range'_succ]
          exact ⟨by rw [ih1, hidx], by rw [ih2, hcf]⟩

theorem hybridGo_map (args : EncodeArgs) (fr : Rat) :
    ∀ (k : Nat) (segs : List (String × Nat × Nat × Scene)) (out : List Chunk),
      create_video_queue_hybrid_go args fr k segs = some out →
      out.map Chunk.index = List.range' k segs.length ∧
      out.map Chunk.frames = segs.map fun seg => seg.2.2.1 - seg.2.1
  | k, [], out, h => by
    simp only [create_video_queue_hybrid_go, Option.some_inj] at h
    subst h
    exact ⟨rfl, rfl⟩
  | k, seg :: rest, out, h => by
    simp only [create_video_queue_hybrid_go] at h
    cases hc : create_select_chunk args k seg.1 seg.2.1 seg.2.2.1 fr
        seg.2.2.2.zone_overrides with
    | none => rw [hc] at h; cases h
    | some c =>
      simp only [hc] at h
      cases hrec : create_video_queue_hybrid_go args fr (k + 1) rest with
      | none => rw [hrec] at h; cases h
      | some cs =>
        simp only [hrec, Option.some_inj] at h
        subst h
        obtain ⟨ih1, ih2⟩ := hybridGo_map args fr (k + 1) rest cs hrec
        obtain ⟨hidx, hs, he⟩ := create_select_chunk_spec args k seg.1 seg.2.1
          seg.2.2.1 fr seg.2.2.2.zone_overrides c hc
        have hcf : c.frames = seg.2.2.1 - seg.2.1 := by
          unfold Chunk.frames
          rw [hs, he]
        simp only [List.map_cons, List.length_cons, List.range'_succ]
        exact ⟨by rw [ih1, hidx], by rw [ih2, hcf]⟩

/-! ## Sum and index facts of the planned queues -/

theorem queue_props_of_base (q0 q : List Chunk) (S : Nat)
    (hperm : q.Perm q0)
    (hidx : q0.map Chunk.index = List.range' 0 q0.length)
    (hsum : chunksFrames q0 = S) :
    (q.map Chunk.index).Perm (List.range q.length) ∧ chunksFrames q = S := by
  constructor
  · have hm := hperm.map Chunk.index
    rw [hidx] at hm
    rw [hperm.length_eq, List.range_eq_range']
    exact hm
  · unfold chunksFrames at hsum ⊢
    rw [(hperm.map Chunk.frames).sum_eq]
    exact hsum

theorem vs_path_props (args : EncodeArgs) (scenes : List Scene) (vs_script : String)
    (fr : Rat) (total : Nat) (htile : TilesSeg 0 scenes total) :
    (create_video_queue_vs args scenes vs_script fr).map Chunk.index =
      List.range' 0 (create_video_queue_vs args scenes vs_script fr).length ∧
    chunksFrames (create_video_queue_vs args scenes vs_script fr) = total := by
  obtain ⟨h1, h2⟩ := vsGo_map args vs_script fr 0 scenes
  have hlen : (create_video_queue_vs_go args vs_script fr 0 scenes).length =
      scenes.length := by
    have hh := congrArg List.length h1
    simpa using hh
  constructor
  · unfold create_video_queue_vs
    rw [h1, hlen]
  · unfold chunksFrames create_video_queue_vs
    rw [h2]
    have hs := tilesSeg_sum htile
    simpa using hs

theorem select_path_props (args : EncodeArgs) (scenes : List Scene) (fr : Rat)
    (total : Nat) (q0 : List Chunk) (htile : TilesSeg 0 scenes total)
    (hb : create_video_queue_select args scenes fr = some q0) :
    q0.map Chunk.index = List.range' 0 q0.length ∧ chunksFrames q0 = total := by
  unfold create_video_queue_select at hb
  obtain ⟨h1, h2⟩ := selectGo_map args args.input.as_video_path fr 0 scenes q0 hb
  have hlen : q0.length = scenes.length := by
    have hh := congrArg List.length h1
    simpa using hh
  constructor
  · rw [h1, hlen]
  · unfold chunksFrames
    rw [h2]
    have hs := tilesSeg_sum htile
    simpa using hs

theorem segment_path_props (args : EncodeArgs) (scenes : List Scene) (ext : Externals)
    (q0 : List Chunk)
    (hb : create_video_queue_segment args scenes ext = some q0) :
    q0.map Chunk.index = List.range' 0 q0.length ∧
    chunksFrames q0 =
      ((segQueueFiles ext.split_files).map fun f => (ext.probe f).getD 0).sum := by
  unfold create_video_queue_segment at hb
  dsimp only at hb
  split at hb
  · cases hb
  · obtain ⟨h1, h2⟩ := segmentGo_map args ext.frame_rate ext.probe scenes 0
      (segQueueFiles ext.split_files) q0 hb
    have hlen : q0.length = (segQueueFiles ext.split_files).length := by
      have hh := congrArg List.length h1
      simpa using hh
    constructor
    · rw [h1, hlen]
    · unfold chunksFrames
      rw [h2]

theorem coveredFrames_eq (x y : Nat) (file : String) : ∀ (scenes : List Scene),
    ((scenes.filterMap fun s =>
        if s.start_frame ≥ x ∧ s.end_frame ≤ y ∧ s.start_frame < s.end_frame then
          some (file, s.start_frame - x, s.end_frame - x, s)
        else none).map fun seg => seg.2.2.1 - seg.2.1).sum =
      coveredFrames scenes (x, y)
  | [] => rfl
  | s :: rest => by
    have ih := coveredFrames_eq x y file rest
    by_cases hc : s.start_frame ≥ x ∧ s.end_frame ≤ y ∧ s.start_frame < s.end_frame
    · simp only [List.filterMap_cons, if_pos hc, List.map_cons, List.sum_cons]
      unfold coveredFrames
      simp only [List.filter_cons, decide_eq_true hc, if_pos, List.map_cons,
        List.sum_cons]
      rw [Nat.sub_sub_sub_cancel_right hc.1]
      unfold coveredFrames at ih
      rw [ih]
    · simp only [List.filterMap_cons, if_neg hc]
      unfold coveredFrames
      simp only [List.filter_cons, decide_eq_false hc, Bool.false_eq_true, if_false]
      unfold coveredFrames at ih
      rw [ih]

theorem hybridSegments_sum (scenes : List Scene)
    (pairsFW : List (String × (Nat × Nat))) :
    ((hybridSegments scenes pairsFW).map fun seg => seg.2.2.1 - seg.2.1).sum =
      (pairsFW.map fun fw => coveredFrames scenes fw.2).sum := by
  unfold hybridSegments
  rw [List.map_flatMap, List.flatMap_def, List.sum_flatten, List.map_map]
  congr 1
  apply List.map_congr_left
  intro fw _
  exact coveredFrames_eq fw.2.1 fw.2.2 fw.1 scenes

theorem hybrid_path_props (args : EncodeArgs) (scenes : List Scene) (total : Nat)
    (ext : Externals) (q0 : List Chunk)
    (hb : create_video_queue_hybrid args scenes total ext = some q0) :
    q0.map Chunk.index = List.range' 0 q0.length ∧
    chunksFrames q0 = hybridCoveredTotal scenes total ext := by
  unfold create_video_queue_hybrid at hb
  cases ht : ext.keyframes.filter fun kf => scenes.any fun s => s.start_frame == kf with
  | nil => rw [ht] at hb; cases hb
  | cons a l =>
    simp only [ht] at hb
    obtain ⟨h1, h2⟩ := hybridGo_map args ext.frame_rate 0
      (hybridSegments scenes (hybridPairs scenes total ext)) q0 hb
    have hlen : q0.length =
        (hybridSegments scenes (hybridPairs scenes total ext)).length := by
      have hh := congrArg List.length h1
      simpa using hh
    constructor
    · rw [h1, hlen]
    · unfold chunksFrames
      rw [h2, hybridSegments_sum]
      rfl

/-- Claim C2: for every chunking strategy, given scenes tiling
`[0, total_frames)`, the queue produced by `create_encoding_queue` has index
fields forming exactly the set `{0, …, n-1}` (stated as a permutation of
`range n`), and the chunk frame counts sum to `total_frames` — for Hybrid, to
the frames covered by scenes within the keyframe windows; for Segment this
relies on the splitter contract that the probed segment files cover the clip
(hypothesis `hsegsum`). -/
theorem claim_C2 (args : EncodeArgs) (scenes : List Scene) (total : Nat)
    (ext : Externals) (rng : Nat → Nat) (q : List Chunk)
    (htile : TilesSeg 0 scenes total)
    (hsegsum : usesSegmentPlanner args = true →
      ((segQueueFiles ext.split_files).map fun f => (ext.probe f).getD 0).sum = total)
    (hres : create_encoding_queue args scenes total ext rng = some q) :
    (q.map Chunk.index).Perm (List.range q.length) ∧
    chunksFrames q =
      (if usesHybridPlanner args then hybridCoveredTotal scenes total ext else total) := by
  unfold create_encoding_queue at hres
  cases hin : args.input with
  | vapoursynth path vargs st =>
    rw [hin] at hres
    simp only [Option.some_inj] at hres
    subst hres
    have hhyb : usesHybridPlanner args = false := by
      unfold usesHybridPlanner
      rw [hin]
    have hprops := vs_path_props args scenes path ext.frame_rate total htile
    have hfin := queue_props_of_base _ _ total
      (applyChunkOrder_perm args.chunk_order rng _) hprops.1 hprops.2
    refine ⟨hfin.1, ?_⟩
    simpa [hhyb] using hfin.2
  | video path st =>
    rw [hin] at hres
    cases hm : args.chunk_method with
    | ffms2 =>
      rw [hm] at hres
      simp only [Option.some_inj] at hres
      subst hres
      have hhyb : usesHybridPlanner args = false := by
        unfold usesHybridPlanner
        rw [hin, hm]
      have hprops := vs_path_props args scenes ext.vs_script ext.frame_rate total htile
      have hfin := queue_props_of_base _ _ total
        (applyChunkOrder_perm args.chunk_order rng _) hprops.1 hprops.2
      refine ⟨hfin.1, ?_⟩
      simpa [hhyb] using hfin.2
    | lsmash =>
      rw [hm] at hres
      simp only [Option.some_inj] at hres
      subst hres
      have hhyb : usesHybridPlanner args = false := by
        unfold usesHybridPlanner
        rw [hin, hm]
      have hprops := vs_path_props args scenes ext.vs_script ext.frame_rate total htile
      have hfin := queue_props_of_base _ _ total
        (applyChunkOrder_perm args.chunk_order rng _) hprops.1 hprops.2
      refine ⟨hfin.1, ?_⟩
      simpa [hhyb] using hfin.2
    | dgdecnv =>
      rw [hm] at hres
      simp only [Option.some_inj] at hres
      subst hres
      have hhyb : usesHybridPlanner args = false := by
        unfold usesHybridPlanner
        rw [hin, hm]
      have hprops := vs_path_props args scenes ext.vs_script ext.frame_rate total htile
      have hfin := queue_props_of_base _ _ total
        (applyChunkOrder_perm args.chunk_order rng _) hprops.1 hprops.2
      refine ⟨hfin.1, ?_⟩
      simpa [hhyb] using hfin.2
    | bestsource =>
      rw [hm] at hres
      simp only [Option.some_inj] at hres
      subst hres
      have hhyb : usesHybridPlanner args = false := by
        unfold usesHybridPlanner
        rw [hin, hm]
      have hprops := vs_path_props args scenes ext.vs_script ext.frame_rate total htile
      have hfin := queue_props_of_base _ _ total
        (applyChunkOrder_perm args.chunk_order rng _) hprops.1 hprops.2
      refine ⟨hfin.1, ?_⟩
      simpa [hhyb] using hfin.2
    | select =>
      rw [hm] at hres
      simp only [] at hres
      cases hb : create_video_queue_select args scenes ext.frame_rate with
      | none => rw [hb] at hres; cases hres
      | some q0 =>
        rw [hb] at hres
        simp only [Option.some_inj] at hres
        subst hres
        have hhyb : usesHybridPlanner args = false := by
          unfold usesHybridPlanner
          rw [hin, hm]
        have hprops := select_path_props args scenes ext.frame_rate total q0 htile hb
        have hfin := queue_props_of_base q0 _ total
          (applyChunkOrder_perm args.chunk_order rng q0) hprops.1 hprops.2
        refine ⟨hfin.1, ?_⟩
        simpa [hhyb] using hfin.2
    | segment =>
      rw [hm] at hres
      simp only [] at hres
      cases hb : create_video_queue_segment args scenes ext with
      | none => rw [hb] at hres; cases hres
      | some q0 =>
        rw [hb] at hres
        simp only [Option.some_inj] at hres
        subst hres
        have hhyb : usesHybridPlanner args = false := by
          unfold usesHybridPlanner
          rw [hin, hm]
        have hseg : usesSegmentPlanner args = true := by
          unfold usesSegmentPlanner
          rw [hin, hm]
        have hprops := segment_path_props args scenes ext q0 hb
        have hsum : chunksFrames q0 = total := by
          rw [hprops.2]
          exact hsegsum hseg
        have hfin := queue_props_of_base q0 _ total
          (applyChunkOrder_perm args.chunk_order rng q0) hprops.1 hsum
        refine ⟨hfin.1, ?_⟩
        simpa [hhyb] using hfin.2
    | hybrid =>
      rw [hm] at hres
      simp only [] at hres
      cases hb : create_video_queue_hybrid args scenes total ext with
      | none => rw [hb] at hres; cases hres
      | some q0 =>
        rw [hb] at hres
        simp only [Option.some_inj] at hres
        subst hres
        have hhyb : usesHybridPlanner args = true := by
          unfold usesHybridPlanner
          rw [hin, hm]
        have hprops := hybrid_path_props args scenes total ext q0 hb
        have hfin := queue_props_of_base q0 _ (hybridCoveredTotal scenes total ext)
          (applyChunkOrder_perm args.chunk_order rng q0) hprops.1 hprops.2
        refine ⟨hfin.1, ?_⟩
        simpa [hhyb] using hfin.2

theorem claim_C2_witness :
    TilesSeg 0 scenes2W 5 ∧
    (usesSegmentPlanner argsW = true →
      ((segQueueFiles extW.split_files).map fun f => (extW.probe f).getD 0).sum = 5) ∧
    ((((create_encoding_queue argsW scenes2W 5 extW fun _ => 0).getD []).map
        Chunk.index).Perm
      (List.range ((create_encoding_queue argsW scenes2W 5 extW fun _ => 0).getD
        []).length) ∧
     chunksFrames ((create_encoding_queue argsW scenes2W 5 extW fun _ => 0).getD []) =
      (if usesHybridPlanner argsW then hybridCoveredTotal scenes2W 5 extW else 5)) :=
  ⟨by decide, fun h => absurd h (by decide),
    claim_C2 argsW scenes2W 5 extW (fun _ => 0)
      ((create_encoding_queue argsW scenes2W 5 extW fun _ => 0).getD [])
      (by decide) (fun h => absurd h (by decide)) rfl⟩

/-- Claim C9 as frozen is false on the code: with the `Random` chunk ordering,
`create_encoding_queue` shuffles with the unseeded thread RNG
(`chunks.shuffle(&mut rng())`), so two runs — modelled by two draw streams of
that RNG — produce different chunk lists on the same input, scenes and
configuration. -/
theorem claim_C9_counterexample :
    ¬ (create_encoding_queue argsRandomW scenes2W 5 extW (fun _ => 0) =
       create_encoding_queue argsRandomW scenes2W 5 extW (fun _ => 1)) := by
  intro h
  have h2 := congrArg (Option.map fun l => l.map Chunk.index) h
  revert h2
  decide

/-- Claim C9 amended: chunk-queue generation is deterministic — independent of
the thread RNG — for the `LongestFirst`, `ShortestFirst` and `Sequential`
orderings; the `Random` ordering depends on the unseeded thread RNG (the
source does not seed it, as spec §9 flags open), so its order is not
reproducible across runs. -/
theorem claim_C9_amended (args : EncodeArgs) (scenes : List Scene) (total : Nat)
    (ext : Externals) (rng1 rng2 : Nat → Nat)
    (hord : args.chunk_order ≠ ChunkOrdering.random) :
    create_encoding_queue args scenes total ext rng1 =
      create_encoding_queue args scenes total ext rng2 := by
  unfold create_encoding_queue
  cases ho : args.chunk_order with
  | random => exact absurd ho hord
  | longest_first => rfl
  | shortest_first => rfl
  | sequential => rfl

theorem claim_C9_amended_witness :
    (argsW.chunk_order ≠ ChunkOrdering.random) ∧
    create_encoding_queue argsW scenes2W 5 extW (fun _ => 0) =
      create_encoding_queue argsW scenes2W 5 extW (fun _ => 1) :=
  ⟨by decide,
    claim_C9_amended argsW scenes2W 5 extW (fun _ => 0) (fun _ => 1) (by decide)⟩

end Av1an
